import Mathlib

/-!
Verification development for the `dapp-runner` repository.

The definitions in this file are shallow embeddings of the Python sources:

* `dapp_runner/descriptor/dapp.py` — the dapp descriptor model, its implicit
  defaults (`__implicit_proxy_init`, `__implicit_vpn`,
  `__implicit_manifest_support`), the dependency graph
  (`_resolve_depends_on`, `_resolve_dependencies`) and `nodes_prioritized`;
* `dapp_runner/descriptor/base.py` — the GAOM lookup engine
  (`_perform_gaom_lookup`, `_perform_generic_lookup`, `is_runtime_property`);
* `dapp_runner/runner/runner.py` — `_get_app_state_from_nodes`;
* `dapp_runner/runner/streams.py` — `RunnerStream.update` /
  `RunnerStreamer` as a cooperative step relation.

Python dictionaries are modelled as association lists that keep insertion
order (the order Python 3.7+ dictionaries guarantee); machine-level details
that the code never relies on (hashing, object identity) are not modelled.
-/

namespace DappRunner

/-- A JSON-like value: the shape of the data `pydantic`'s `.dict()`
serialization produces and that `_perform_generic_lookup` traverses.
`null` stands for Python's `None`. -/
inductive JValue where
  | null : JValue
  | jstr (s : String) : JValue
  | jint (n : Int) : JValue
  | jbool (b : Bool) : JValue
  | jarr (xs : List JValue) : JValue
  | jobj (kvs : List (String × JValue)) : JValue
deriving Repr

mutual

/-- Decidable equality for `JValue` (the automatic derivation does not handle
the nested `List` occurrences). -/
def JValue.decEq : (a b : JValue) → Decidable (a = b)
  | .null, .null => .isTrue rfl
  | .jstr a, .jstr b =>
      match String.decEq a b with
      | .isTrue h => .isTrue (h ▸ rfl)
      | .isFalse h => .isFalse fun he => h (JValue.jstr.inj he)
  | .jint a, .jint b =>
      match Int.decEq a b with
      | .isTrue h => .isTrue (h ▸ rfl)
      | .isFalse h => .isFalse fun he => h (JValue.jint.inj he)
  | .jbool a, .jbool b =>
      match Bool.decEq a b with
      | .isTrue h => .isTrue (h ▸ rfl)
      | .isFalse h => .isFalse fun he => h (JValue.jbool.inj he)
  | .jarr xs, .jarr ys =>
      match JValue.decEqList xs ys with
      | .isTrue h => .isTrue (h ▸ rfl)
      | .isFalse h => .isFalse fun he => h (JValue.jarr.inj he)
  | .jobj xs, .jobj ys =>
      match JValue.decEqKvs xs ys with
      | .isTrue h => .isTrue (h ▸ rfl)
      | .isFalse h => .isFalse fun he => h (JValue.jobj.inj he)
  | .null, .jstr _ => .isFalse fun he => nomatch he
  | .null, .jint _ => .isFalse fun he => nomatch he
  | .null, .jbool _ => .isFalse fun he => nomatch he
  | .null, .jarr _ => .isFalse fun he => nomatch he
  | .null, .jobj _ => .isFalse fun he => nomatch he
  | .jstr _, .null => .isFalse fun he => nomatch he
  | .jstr _, .jint _ => .isFalse fun he => nomatch he
  | .jstr _, .jbool _ => .isFalse fun he => nomatch he
  | .jstr _, .jarr _ => .isFalse fun he => nomatch he
  | .jstr _, .jobj _ => .isFalse fun he => nomatch he
  | .jint _, .null => .isFalse fun he => nomatch he
  | .jint _, .jstr _ => .isFalse fun he => nomatch he
  | .jint _, .jbool _ => .isFalse fun he => nomatch he
  | .jint _, .jarr _ => .isFalse fun he => nomatch he
  | .jint _, .jobj _ => .isFalse fun he => nomatch he
  | .jbool _, .null => .isFalse fun he => nomatch he
  | .jbool _, .jstr _ => .isFalse fun he => nomatch he
  | .jbool _, .jint _ => .isFalse fun he => nomatch he
  | .jbool _, .jarr _ => .isFalse fun he => nomatch he
  | .jbool _, .jobj _ => .isFalse fun he => nomatch he
  | .jarr _, .null => .isFalse fun he => nomatch he
  | .jarr _, .jstr _ => .isFalse fun he => nomatch he
  | .jarr _, .jint _ => .isFalse fun he => nomatch he
  | .jarr _, .jbool _ => .isFalse fun he => nomatch he
  | .jarr _, .jobj _ => .isFalse fun he => nomatch he
  | .jobj _, .null => .isFalse fun he => nomatch he
  | .jobj _, .jstr _ => .isFalse fun he => nomatch he
  | .jobj _, .jint _ => .isFalse fun he => nomatch he
  | .jobj _, .jbool _ => .isFalse fun he => nomatch he
  | .jobj _, .jarr _ => .isFalse fun he => nomatch he

/-- Decidable equality for lists of `JValue`. -/
def JValue.decEqList : (a b : List JValue) → Decidable (a = b)
  | [], [] => .isTrue rfl
  | [], _ :: _ => .isFalse fun he => nomatch he
  | _ :: _, [] => .isFalse fun he => nomatch he
  | x :: xs, y :: ys =>
      match JValue.decEq x y, JValue.decEqList xs ys with
      | .isTrue h1, .isTrue h2 => .isTrue (h1 ▸ h2 ▸ rfl)
      | .isFalse h1, _ => .isFalse fun he => h1 (List.cons.inj he).1
      | _, .isFalse h2 => .isFalse fun he => h2 (List.cons.inj he).2

/-- Decidable equality for string-keyed `JValue` association lists. -/
def JValue.decEqKvs : (a b : List (String × JValue)) → Decidable (a = b)
  | [], [] => .isTrue rfl
  | [], _ :: _ => .isFalse fun he => nomatch he
  | _ :: _, [] => .isFalse fun he => nomatch he
  | (k, x) :: xs, (k2, y) :: ys =>
      match String.decEq k k2, JValue.decEq x y, JValue.decEqKvs xs ys with
      | .isTrue h0, .isTrue h1, .isTrue h2 => .isTrue (h0 ▸ h1 ▸ h2 ▸ rfl)
      | .isFalse h0, _, _ =>
          .isFalse fun he => h0 (congrArg Prod.fst (List.cons.inj he).1)
      | _, .isFalse h1, _ =>
          .isFalse fun he => h1 (congrArg Prod.snd (List.cons.inj he).1)
      | _, _, .isFalse h2 => .isFalse fun he => h2 (List.cons.inj he).2

end

instance : DecidableEq JValue := JValue.decEq

/-- Errors raised by descriptor loading (`DescriptorError` in
`dapp_runner/descriptor/error.py`), distinguished by the raise site in
`dapp.py`. -/
inductive DescriptorError where
  | undefinedPayload (payload : String) : DescriptorError
  | undefinedNetwork (network : String) : DescriptorError
  | unmetDependsOn (dep service : String) : DescriptorError
  | circularDependsOn : DescriptorError
  | cannotParseCommand : DescriptorError
deriving DecidableEq, Repr

/-- Decidable equality for `Except` results (not provided by the core
library). -/
def exceptDecEq {ε α : Type} [DecidableEq ε] [DecidableEq α] :
    (a b : Except ε α) → Decidable (a = b)
  | .ok x, .ok y =>
      match decEq x y with
      | .isTrue h => .isTrue (h ▸ rfl)
      | .isFalse h => .isFalse fun he => h (Except.ok.inj he)
  | .error x, .error y =>
      match decEq x y with
      | .isTrue h => .isTrue (h ▸ rfl)
      | .isFalse h => .isFalse fun he => h (Except.error.inj he)
  | .ok _, .error _ => .isFalse fun he => nomatch he
  | .error _, .ok _ => .isFalse fun he => nomatch he

instance {ε α : Type} [DecidableEq ε] [DecidableEq α] :
    DecidableEq (Except ε α) :=
  exceptDecEq

/-- Update the first binding of `key` in an association list, keeping its
position — the behaviour of assigning to an existing key of a Python dict. -/
def assocUpdate {α : Type} (kvs : List (String × α)) (key : String) (v : α) :
    List (String × α) :=
  match kvs with
  | [] => []
  | (k, w) :: rest =>
      if k = key then (k, v) :: rest else (k, w) :: assocUpdate rest key v

/-! ## Exeunit commands (`CommandDescriptor`, `dapp.py` lines 84-146, 211-217) -/

/-- `EXEUNIT_CMD_RUN` (`dapp.py` line 26). -/
def EXEUNIT_CMD_RUN : String := "run"

/-- The canonical form of one exeunit command: `CommandDescriptor` with its
`cmd` verb and `params` dict. -/
structure CommandDescriptor where
  cmd : String
  params : JValue
deriving DecidableEq, Repr

/-- `CommandDescriptor.canonize_input` (`dapp.py` lines 93-146).
A list is assumed to be a `run` with the whole list as `args`; a
single-entry dict is a `{verb: params}` form (with the shorthand
`run: [args]` special case); a dict with exactly the keys `cmd` and
`params` is already canonical; anything else is a `DescriptorError`. -/
def canonize_input (value : JValue) : Except DescriptorError CommandDescriptor :=
  match value with
  | .jarr xs => .ok ⟨EXEUNIT_CMD_RUN, .jobj [("args", .jarr xs)]⟩
  | .jobj kvs =>
      if kvs.length = 1 then
        match kvs with
        | [(cmd, params)] =>
            if cmd = EXEUNIT_CMD_RUN then
              match params with
              | .jarr xs => .ok ⟨cmd, .jobj [("args", .jarr xs)]⟩
              | _ => .ok ⟨cmd, params⟩
            else .ok ⟨cmd, params⟩
        | _ => .error .cannotParseCommand
      else
        if (kvs.map Prod.fst).length = 2 ∧
            "cmd" ∈ kvs.map Prod.fst ∧ "params" ∈ kvs.map Prod.fst then
          match kvs.lookup "cmd", kvs.lookup "params" with
          | some (.jstr c), some p => .ok ⟨c, p⟩
          | _, _ => .error .cannotParseCommand
        else .error .cannotParseCommand
  | _ => .error .cannotParseCommand

/-- The `init` validator `__init__canonize_commands`
(`dapp.py` lines 211-217): a list whose first element is a string is a
single-line definition and is wrapped; then every entry is canonized. -/
def canonize_commands (v : List JValue) :
    Except DescriptorError (List CommandDescriptor) :=
  let v := match v with
    | .jstr s :: rest => [JValue.jarr (.jstr s :: rest)]
    | _ => v
  v.mapM canonize_input

/-! ## Proxy port strings (`ProxyDescriptor.__ports__preprocess`,
`dapp.py` lines 63-73) -/

/-- The result of parsing one proxy port entry: the fields of `PortMapping`
that the string form can populate. -/
structure ParsedPortMapping where
  local_port : Option Nat
  remote_port : Nat
deriving DecidableEq, Repr

/-- A nonempty all-digit character sequence (one `\d+` group of the port
regex; `\d` is modelled as the ASCII digits). -/
def isDigits (cs : List Char) : Bool :=
  !cs.isEmpty && cs.all Char.isDigit

/-- Numeric value of a digit sequence, as `int()` computes it. -/
def digitsToNat (cs : List Char) : Nat :=
  cs.foldl (fun acc c => acc * 10 + (c.toNat - 48)) 0

/-- Split a character sequence at its first `:`; `none` when there is no
colon.  This is how the optional `(?P<local_port>\d+)\:` prefix of the port
regex partitions the input, since `\d+` can never span a colon. -/
def splitAtColon (cs : List Char) : List Char × Option (List Char) :=
  match cs with
  | [] => ([], none)
  | c :: rest =>
      if c = ':' then ([], some rest)
      else
        let (a, b) := splitAtColon rest
        (c :: a, b)

/-- The fixed message of the `ValueError` raised on a non-matching port
string. -/
def portFormatError : String :=
  "Expected format: `remote_port` or `local_port:remote_port`."

/-- `ProxyDescriptor.__ports__preprocess` on a string entry
(`dapp.py` lines 63-73): the regex
`^(?:(?P<local_port>\d+)\:)?(?P<remote_port>\d+)$` either matches and the
groups become the port mapping fields, or the `AttributeError` on
`None.groupdict()` is converted into a `ValueError` with a fixed message. -/
def parsePortString (s : String) : Except String ParsedPortMapping :=
  match splitAtColon s.toList with
  | (r, none) =>
      if isDigits r then .ok ⟨none, digitsToNat r⟩ else .error portFormatError
  | (l, some r) =>
      if isDigits l && isDigits r then .ok ⟨some (digitsToNat l), digitsToNat r⟩
      else .error portFormatError

/-- The spec's description of a well-formed port string: `remote_port` or
`local_port:remote_port`, each group a nonempty digit sequence.  Stated
independently of `parsePortString` (directly from the spec's words) so the
two can be compared. -/
def PortStringMatches (s : String) : Prop :=
  isDigits s.toList = true ∨
    ∃ l r, s.toList = l ++ ':' :: r ∧ isDigits l = true ∧ isDigits r = true

/-! ## Application state (`Runner._get_app_state_from_nodes`,
`runner.py` lines 439-471) -/

/-- `yapapi.services.ServiceState` members, as used by the Runner. -/
inductive ServiceState where
  | pending | starting | running | stopping | terminated | suspended
  | unresponsive
deriving DecidableEq, Repr

/-- A per-node state map: node name to the states of its instances, in
instance order — the `Dict[str, Dict[int, ServiceState]]` built by
`Runner.dapp_state` (instance indices are the consecutive `enumerate`
positions, so a plain list is the faithful shape). -/
abbrev NodesStates := List (String × List ServiceState)

/-- The `all_states` set of `_get_app_state_from_nodes`
(`runner.py` line 447), as the flattened list of every instance state. -/
def allStates (dappState : NodesStates) : List ServiceState :=
  dappState.foldr (fun node acc => node.2 ++ acc) []

/-- `{self._desired_app_state} == all_states`: the set of collected states is
exactly the singleton of `desired` — some state was collected and all of
them equal `desired`. -/
def statesSetIsSingleton (dappState : NodesStates) (desired : ServiceState) :
    Bool :=
  !(allStates dappState).isEmpty &&
    (allStates dappState).all (fun s => s = desired)

/-- `Runner._get_app_state_from_nodes` (`runner.py` lines 439-471).
`declaredNodeCount` is `len(self.dapp.nodes)`, `desired` is
`self._desired_app_state`; `dappState` is the state map parameter. -/
def getAppStateFromNodes (declaredNodeCount : Nat) (desired : ServiceState)
    (dappState : NodesStates) : ServiceState :=
  if desired = .running then
    if statesSetIsSingleton dappState desired &&
        dappState.length = declaredNodeCount then
      .running
    else .starting
  else if desired = .terminated then
    if statesSetIsSingleton dappState desired then .terminated else .stopping
  else if desired = .suspended then .suspended
  else .pending

/-! ## The GAOM lookup engine (`descriptor/base.py`)

`GaomBase` models are `pydantic` models; the lookup algorithm
`_perform_gaom_lookup` dispatches on each field's *declared* type
(`typing.get_type_hints`) and on its `runtime` schema flag, falling back to
`_perform_generic_lookup` over the `.dict()` serialization.  The embedding
keeps exactly the type shapes the dispatch distinguishes: a plain non-GAOM
value, a GAOM object, an `Optional` GAOM object, a `Dict[str, GaomBase]`
and a `List[GaomBase]`.  (For a plain `Dict[str, Any]` field the dispatch
falls through to the generic lookup, which is the behaviour modelled by the
`val` kind.) -/

mutual

/-- The declared value of one GAOM model field, by the type shapes
`_perform_gaom_lookup` distinguishes. -/
inductive GFieldVal where
  | val (v : JValue) : GFieldVal
  | gaom (g : GaomObj) : GFieldVal
  | optGaom (g : Option GaomObj) : GFieldVal
  | dictGaom (m : List (String × GaomObj)) : GFieldVal
  | listGaom (l : List GaomObj) : GFieldVal

/-- A GAOM model instance: its fields in declaration order, each with its
name, its `runtime` schema flag (`Field(runtime=True)`) and its value. -/
inductive GaomObj where
  | mk (fields : List (String × Bool × GFieldVal)) : GaomObj

end

/-- The fields of a GAOM object. -/
def GaomObj.fields : GaomObj → List (String × Bool × GFieldVal)
  | .mk fs => fs

mutual

/-- Serialization of a field value, as `pydantic`'s `.dict()` produces it
(`None` for an absent optional object; runtime fields are included). -/
def serializeVal : GFieldVal → JValue
  | .val v => v
  | .gaom g => serializeObj g
  | .optGaom none => .null
  | .optGaom (some g) => serializeObj g
  | .dictGaom m => .jobj (serializeDict m)
  | .listGaom l => .jarr (serializeList l)

/-- `self.dict()` for a GAOM object. -/
def serializeObj : GaomObj → JValue
  | .mk fs => .jobj (serializeFields fs)

/-- Serialization of a field list. -/
def serializeFields : List (String × Bool × GFieldVal) → List (String × JValue)
  | [] => []
  | (name, _, f) :: rest => (name, serializeVal f) :: serializeFields rest

/-- Serialization of a `Dict[str, GaomBase]` value. -/
def serializeDict : List (String × GaomObj) → List (String × JValue)
  | [] => []
  | (name, g) :: rest => (name, serializeObj g) :: serializeDict rest

/-- Serialization of a `List[GaomBase]` value. -/
def serializeList : List GaomObj → List JValue
  | [] => []
  | g :: rest => serializeObj g :: serializeList rest

end

/-- One component of a lookup query (`GaomQueryComponent`): a key and an
optional index, as produced by `_get_lookup_components`. -/
structure QComp where
  key : String
  index : Option Nat
deriving DecidableEq, Repr

/-- The exception a lookup can raise.  `gaomRuntimeLookupError` is
`GaomRuntimeLookupError` (a subclass of `GaomLookupError`);
`attributeError` is the uncaught Python `AttributeError` that
`is_runtime_property` raises when the queried field name is not among the
model's schema properties (`properties.get(field_name)` returns `None` and
`None.get(...)` fails); `valueError` is the `ValueError` of a malformed
query string. -/
inductive LookupError where
  | gaomLookupError : LookupError
  | gaomRuntimeLookupError : LookupError
  | attributeError : LookupError
deriving DecidableEq, Repr

/-- One `data = data_dict.get(c.key)` step of `_perform_generic_lookup`
(`base.py` line 67).  Python's `dict.get` returns `None` for a missing key;
calling `.get` on anything that is not a dict raises `AttributeError`, which
the surrounding `except` converts to `GaomLookupError`. -/
def getAttrStep (d : JValue) (key : String) : Except LookupError JValue :=
  match d with
  | .jobj kvs => .ok ((kvs.lookup key).getD .null)
  | _ => .error .gaomLookupError

/-- One `data = data[c.index]` step of `_perform_generic_lookup`
(`base.py` line 69).  Indexing a list out of range raises `IndexError`, a
dict raises `KeyError` (our keys are strings, the index is an int), a string
in range yields the character, anything else raises `TypeError`; all are
caught and converted to `GaomLookupError`. -/
def indexAttrStep (d : JValue) (i : Nat) : Except LookupError JValue :=
  match d with
  | .jarr xs =>
      match xs.get? i with
      | some v => .ok v
      | none => .error .gaomLookupError
  | .jstr s =>
      match s.toList.get? i with
      | some c => .ok (.jstr (String.mk [c]))
      | none => .error .gaomLookupError
  | _ => .error .gaomLookupError

/-- `GaomBase._perform_generic_lookup` (`base.py` lines 59-76): iterate the
query components over the serialized data. -/
def genericLookup (data : JValue) : List QComp → Except LookupError JValue
  | [] => .ok data
  | c :: rest => do
      let v ← getAttrStep data c.key
      let v ← match c.index with
        | none => pure v
        | some i => indexAttrStep v i
      genericLookup v rest

/-- `GaomBase._perform_gaom_lookup` (`base.py` lines 78-150).

For a non-empty component list: first the runtime-flag check on the first
component's key (`is_runtime_property`, which raises `AttributeError` for an
unknown field and `GaomRuntimeLookupError` for a runtime field outside a
runtime context), then the type-directed dispatch — a GAOM object field, a
present `Optional` GAOM field, a `Dict[str, GaomBase]` field followed by an
index-free key, or a `List[GaomBase]` field with an index, recurse; every
other combination falls through to `_perform_generic_lookup` over the whole
serialized object, with the same component list. -/
def gaomLookup (o : GaomObj) (cs : List QComp) (isRuntime : Bool) :
    Except LookupError JValue :=
  match cs with
  | [] => genericLookup (serializeObj o) []
  | c :: rest =>
      match o.fields.lookup c.key with
      | none => .error .attributeError
      | some (rt, fld) =>
          if rt && !isRuntime then .error .gaomRuntimeLookupError
          else
            match fld, c.index with
            | .gaom g, none => gaomLookup g rest isRuntime
            | .optGaom (some g), none => gaomLookup g rest isRuntime
            | .dictGaom m, none =>
                match rest with
                | c2 :: rest2 =>
                    if c2.index = none then
                      match m.lookup c2.key with
                      | none => .error .gaomLookupError
                      | some g => gaomLookup g rest2 isRuntime
                    else genericLookup (serializeObj o) (c :: rest)
                | [] => genericLookup (serializeObj o) (c :: rest)
            | .listGaom l, some i =>
                match l.get? i with
                | none => .error .gaomLookupError
                | some g => gaomLookup g rest isRuntime
            | _, _ => genericLookup (serializeObj o) (c :: rest)
termination_by cs.length
decreasing_by all_goals simp_arith

/-- A query addresses a runtime-flagged field: the components reach, through
the recursive branches of `_perform_gaom_lookup` (object, present optional
object, dict entry, list entry), a component whose key is a field flagged
`runtime=True` on its owning object. -/
inductive AddressesRuntime : GaomObj → List QComp → Prop where
  | here (fs : List (String × Bool × GFieldVal)) (c : QComp) (rest : List QComp)
      (fld : GFieldVal) :
      fs.lookup c.key = some (true, fld) →
      AddressesRuntime (.mk fs) (c :: rest)
  | viaGaom (fs : List (String × Bool × GFieldVal)) (c : QComp)
      (rest : List QComp) (b : Bool) (g : GaomObj) :
      fs.lookup c.key = some (b, .gaom g) → c.index = none →
      AddressesRuntime g rest →
      AddressesRuntime (.mk fs) (c :: rest)
  | viaOpt (fs : List (String × Bool × GFieldVal)) (c : QComp)
      (rest : List QComp) (b : Bool) (g : GaomObj) :
      fs.lookup c.key = some (b, .optGaom (some g)) → c.index = none →
      AddressesRuntime g rest →
      AddressesRuntime (.mk fs) (c :: rest)
  | viaDict (fs : List (String × Bool × GFieldVal)) (c c2 : QComp)
      (rest : List QComp) (b : Bool) (m : List (String × GaomObj)) (g : GaomObj) :
      fs.lookup c.key = some (b, .dictGaom m) → c.index = none →
      c2.index = none → m.lookup c2.key = some g →
      AddressesRuntime g rest →
      AddressesRuntime (.mk fs) (c :: c2 :: rest)
  | viaList (fs : List (String × Bool × GFieldVal)) (c : QComp)
      (rest : List QComp) (b : Bool) (l : List GaomObj) (i : Nat) (g : GaomObj) :
      fs.lookup c.key = some (b, .listGaom l) → c.index = some i →
      l.get? i = some g →
      AddressesRuntime g rest →
      AddressesRuntime (.mk fs) (c :: rest)

/-- A query resolves, through the same recursive branches, to a
runtime-flagged field as its final target; the resulting value is the
field's serialization. -/
inductive ResolvesToRuntime : GaomObj → List QComp → JValue → Prop where
  | here (fs : List (String × Bool × GFieldVal)) (k : String)
      (fld : GFieldVal) :
      fs.lookup k = some (true, fld) →
      ResolvesToRuntime (.mk fs) [⟨k, none⟩] (serializeVal fld)
  | viaGaom (fs : List (String × Bool × GFieldVal)) (c : QComp)
      (rest : List QComp) (b : Bool) (g : GaomObj) (v : JValue) :
      fs.lookup c.key = some (b, .gaom g) → c.index = none →
      ResolvesToRuntime g rest v →
      ResolvesToRuntime (.mk fs) (c :: rest) v
  | viaOpt (fs : List (String × Bool × GFieldVal)) (c : QComp)
      (rest : List QComp) (b : Bool) (g : GaomObj) (v : JValue) :
      fs.lookup c.key = some (b, .optGaom (some g)) → c.index = none →
      ResolvesToRuntime g rest v →
      ResolvesToRuntime (.mk fs) (c :: rest) v
  | viaDict (fs : List (String × Bool × GFieldVal)) (c c2 : QComp)
      (rest : List QComp) (b : Bool) (m : List (String × GaomObj)) (g : GaomObj)
      (v : JValue) :
      fs.lookup c.key = some (b, .dictGaom m) → c.index = none →
      c2.index = none → m.lookup c2.key = some g →
      ResolvesToRuntime g rest v →
      ResolvesToRuntime (.mk fs) (c :: c2 :: rest) v
  | viaList (fs : List (String × Bool × GFieldVal)) (c : QComp)
      (rest : List QComp) (b : Bool) (l : List GaomObj) (i : Nat) (g : GaomObj)
      (v : JValue) :
      fs.lookup c.key = some (b, .listGaom l) → c.index = some i →
      l.get? i = some g →
      ResolvesToRuntime g rest v →
      ResolvesToRuntime (.mk fs) (c :: rest) v

/-! ## The stream multiplexer (`runner/streams.py`)

`RunnerStreamer` runs one `_feed_queue` task per source queue and one
`RunnerStream.update` task per registered sink; both loop on
`await queue.get()` inside `try ... except asyncio.CancelledError: return`.
The state below models one source queue feeding one registered stream, under
asyncio's single-threaded cooperative scheduling.  The key cancellation
fact, reflected in the step relation: `Task.cancel()` makes the task's next
resumption raise `CancelledError` at its `await` — after
`RunnerStreamer.stop()` has cancelled the tasks, no further `queue.get()`
completes in them, so each task's next step is the `return` of its `except`
branch, never another write. -/
structure StreamerState where
  srcQueue : List String
  sinkQueue : List String
  written : List String
  feedAlive : Bool
  updateAlive : Bool
  stopRequested : Bool
deriving DecidableEq, Repr

/-- The initial state of a freshly registered stream: empty queues, both
tasks running, no stop requested. -/
def initStreamerState : StreamerState :=
  ⟨[], [], [], true, true, false⟩

/-- One scheduler step of the modelled system. -/
inductive StreamerStep : StreamerState → StreamerState → Prop where
  /-- A producer (`put_nowait` in the Runner) enqueues a message on the
  source queue. -/
  | produce (s : StreamerState) (m : String) :
      StreamerStep s { s with srcQueue := s.srcQueue ++ [m] }
  /-- `_feed_queue` resumes from `queue.get()` with a message and copies it
  to the registered stream's queue (`put_nowait`); only possible while the
  task is alive and not cancelled. -/
  | feed (s : StreamerState) (m : String) (rest : List String) :
      s.feedAlive = true → s.stopRequested = false →
      s.srcQueue = m :: rest →
      StreamerStep s
        { s with srcQueue := rest, sinkQueue := s.sinkQueue ++ [m] }
  /-- `RunnerStream.update` resumes from `queue.get()` with a message and
  writes it to the sink; only possible while the task is alive and not
  cancelled. -/
  | consume (s : StreamerState) (m : String) (rest : List String) :
      s.updateAlive = true → s.stopRequested = false →
      s.sinkQueue = m :: rest →
      StreamerStep s
        { s with sinkQueue := rest, written := s.written ++ [m] }
  /-- `RunnerStreamer.stop()` cancels every task. -/
  | stop (s : StreamerState) :
      StreamerStep s { s with stopRequested := true }
  /-- A cancelled `_feed_queue` task resumes, its `await` raises
  `CancelledError`, and the task returns. -/
  | feedCancelled (s : StreamerState) :
      s.feedAlive = true → s.stopRequested = true →
      StreamerStep s { s with feedAlive := false }
  /-- A cancelled `RunnerStream.update` task resumes, its `await` raises
  `CancelledError`, and the task returns. -/
  | updateCancelled (s : StreamerState) :
      s.updateAlive = true → s.stopRequested = true →
      StreamerStep s { s with updateAlive := false }

/-- Reachability under the streamer step relation. -/
def StreamerReachable : StreamerState → StreamerState → Prop :=
  Relation.ReflTransGen StreamerStep

/-- Claim C3 as stated: for every reachable state in which stop has been
requested, every message enqueued on the stream's queue at that moment is
written to the sink before the update task exits. -/
def FlushOnStopClaim : Prop :=
  ∀ s s' : StreamerState, StreamerReachable initStreamerState s →
    s.stopRequested = true →
    StreamerReachable s s' → s'.updateAlive = false →
    ∀ m, m ∈ s.sinkQueue → m ∈ s'.written

/-! ## The dapp descriptor (`descriptor/dapp.py`) -/

/-- `NETWORK_DEFAULT_NAME` (`dapp.py` line 17). -/
def NETWORK_DEFAULT_NAME : String := "default"

/-- `PAYLOAD_RUNTIME_VM` (`dapp.py` line 19). -/
def PAYLOAD_RUNTIME_VM : String := "vm"

/-- `PAYLOAD_RUNTIME_VM_MANIFEST` (`dapp.py` line 20). -/
def PAYLOAD_RUNTIME_VM_MANIFEST : String := "vm/manifest"

/-- `VM_PAYLOAD_CAPS_KWARG` (`dapp.py` line 22). -/
def VM_PAYLOAD_CAPS_KWARG : String := "capabilities"

/-- `DEPENDENCY_ROOT` (`dapp.py` line 24): the synthetic root of the
dependency graph is the empty string. -/
def DEPENDENCY_ROOT : String := ""

/-- `yapapi.payload.vm.VM_CAPS_VPN`, the value injected by
`__implicit_vpn`; its value in yapapi is `"vpn"`. -/
def VM_CAPS_VPN : String := "vpn"

/-- `VM_CAPS_MANIFEST` (`dapp.py` line 29). -/
def VM_CAPS_MANIFEST : String := "manifest-support"

/-- `PayloadDescriptor` (`dapp.py` lines 34-41). -/
structure PayloadDescriptor where
  runtime : String
  params : List (String × JValue) := []
deriving DecidableEq, Repr

/-- `ProxyDescriptor` / `HttpProxyDescriptor` / `SocketProxyDescriptor`
(`dapp.py` lines 55-81): a list of port mappings. -/
structure ProxyDescriptor where
  ports : List ParsedPortMapping := []
deriving DecidableEq, Repr

/-- `ServiceDescriptor` (`dapp.py` lines 192-217).  The runtime-only fields
(`state`, `network_node`, `agreement`, `activity`) and the `ip` list play no
role in the descriptor-level operations under study and are treated in the
GAOM section generically. -/
structure ServiceDescriptor where
  payload : String
  init : List CommandDescriptor := []
  network : Option String := none
  http_proxy : Option ProxyDescriptor := none
  tcp_proxy : Option ProxyDescriptor := none
  depends_on : List String := []
deriving DecidableEq, Repr

/-- `NetworkDescriptor` (`dapp.py` lines 220-232), the descriptor-time
fields. -/
structure NetworkDescriptor where
  ip : String := "192.168.0.0/24"
  owner_ip : Option String := none
  mask : Option String := none
  gateway : Option String := none
deriving DecidableEq, Repr

/-- `DappDescriptor` (`dapp.py` lines 262-357): ordered payload, node and
network maps (`meta` carries no behaviour). -/
structure DappDescriptor where
  payloads : List (String × PayloadDescriptor)
  nodes : List (String × ServiceDescriptor)
  networks : List (String × NetworkDescriptor) := []
deriving DecidableEq, Repr

/-- Python truthiness of the `Optional[str]` `node.network`: `None` and the
empty string are both falsy (the code tests `if node.network ...` /
`... and not node.network`). -/
def networkTruthy : Option String → Bool
  | none => false
  | some s => !(s == "")

/-- The check `__validate_nodes` performs for one node. -/
def validateNode (d : DappDescriptor) (node : ServiceDescriptor) :
    Except DescriptorError Unit :=
  if (d.payloads.lookup node.payload).isNone then
    .error (.undefinedPayload node.payload)
  else if networkTruthy node.network &&
      (d.networks.lookup (node.network.getD "")).isNone then
    .error (.undefinedNetwork (node.network.getD ""))
  else .ok ()

/-- The `for node in self.nodes.values()` loop of `__validate_nodes`. -/
def validateNodesAux (d : DappDescriptor) :
    List (String × ServiceDescriptor) → Except DescriptorError Unit
  | [] => .ok ()
  | (_, node) :: rest => do
      let _ ← validateNode d node
      validateNodesAux d rest

/-- `DappDescriptor.__validate_nodes` (`dapp.py` lines 283-289): every
node's payload must be a defined payload, and a (truthy) declared network
must be a defined network. -/
def validateNodes (d : DappDescriptor) : Except DescriptorError Unit :=
  validateNodesAux d d.nodes

/-- `DappDescriptor.__default_network` (`dapp.py` lines 291-295): when no
networks are defined, add a `"default"` one; return the first network's
name. -/
def defaultNetworkStep (networks : List (String × NetworkDescriptor)) :
    String × List (String × NetworkDescriptor) :=
  match networks with
  | [] => (NETWORK_DEFAULT_NAME, [(NETWORK_DEFAULT_NAME, {})])
  | (name, n) :: rest => (name, (name, n) :: rest)

/-- The condition of `__implicit_proxy_init`, which by Python operator
precedence reads `http_proxy or (tcp_proxy and not network)`. -/
def proxyNeedsNetwork (node : ServiceDescriptor) : Bool :=
  node.http_proxy.isSome ||
    (node.tcp_proxy.isSome && !(networkTruthy node.network))

/-- The `for node in self.nodes.values()` loop of `__implicit_proxy_init`:
the networks map is threaded through because `__default_network` may create
the default network while the loop runs. -/
def implicitProxyInitAux :
    List (String × ServiceDescriptor) → List (String × NetworkDescriptor) →
      List (String × ServiceDescriptor) × List (String × NetworkDescriptor)
  | [], networks => ([], networks)
  | (name, node) :: rest, networks =>
      if proxyNeedsNetwork node then
        let (first, networks) := defaultNetworkStep networks
        let (restNodes, networks) := implicitProxyInitAux rest networks
        ((name, { node with network := some first }) :: restNodes, networks)
      else
        let (restNodes, networks) := implicitProxyInitAux rest networks
        ((name, node) :: restNodes, networks)

/-- `DappDescriptor.__implicit_proxy_init` (`dapp.py` lines 297-301): the
matching nodes' `network` is assigned the default network's name. -/
def implicitProxyInit (d : DappDescriptor) : DappDescriptor :=
  let (nodes, networks) := implicitProxyInitAux d.nodes d.networks
  { d with nodes := nodes, networks := networks }

/-- The `capabilities` parameter entry injected by `__implicit_vpn`. -/
def vpnCapsEntry : String × JValue :=
  (VM_PAYLOAD_CAPS_KWARG, .jarr [.jstr VM_CAPS_VPN])

/-- One node's processing in `DappDescriptor.__implicit_vpn`
(`dapp.py` lines 303-311): a node with a (truthy) network whose payload has
runtime `vm` and no `capabilities` param yet gets `capabilities: ["vpn"]`
added to that payload's params.  (In the loading pipeline the payload
reference is guaranteed to resolve by `__validate_nodes`; an unresolvable
reference leaves the map unchanged here.) -/
def implicitVpnStep (payloads : List (String × PayloadDescriptor))
    (node : ServiceDescriptor) : List (String × PayloadDescriptor) :=
  if networkTruthy node.network then
    match payloads.lookup node.payload with
    | some p =>
        if p.runtime = PAYLOAD_RUNTIME_VM &&
            (p.params.lookup VM_PAYLOAD_CAPS_KWARG).isNone then
          assocUpdate payloads node.payload
            { p with params := p.params ++ [vpnCapsEntry] }
        else payloads
    | none => payloads
  else payloads

/-- The `for node in self.nodes.values()` loop of `__implicit_vpn`. -/
def implicitVpnAux : List (String × ServiceDescriptor) →
    List (String × PayloadDescriptor) → List (String × PayloadDescriptor)
  | [], payloads => payloads
  | (_, node) :: rest, payloads =>
      implicitVpnAux rest (implicitVpnStep payloads node)

/-- See the doc comment on `implicitVpnStep`. -/
def implicitVpn (d : DappDescriptor) : DappDescriptor :=
  { d with payloads := implicitVpnAux d.nodes d.payloads }

/-- `DappDescriptor.__implicit_manifest_support` (`dapp.py` lines 313-320):
every payload with runtime `vm/manifest` and no `capabilities` param yet
gets `capabilities: ["manifest-support"]`. -/
def implicitManifestSupport (d : DappDescriptor) : DappDescriptor :=
  { d with payloads := d.payloads.map (fun entry =>
      let (name, p) := entry
      if p.runtime = PAYLOAD_RUNTIME_VM_MANIFEST &&
          (p.params.lookup VM_PAYLOAD_CAPS_KWARG).isNone then
        (name, { p with params := p.params ++
            [(VM_PAYLOAD_CAPS_KWARG, .jarr [.jstr VM_CAPS_MANIFEST])] })
      else (name, p)) }

/-! ## The dependency graph (`dapp.py` lines 322-357)

The code builds a `networkx.DiGraph` and relies on its
`topological_sort` and `is_directed_acyclic_graph`.  Those two library
functions are modelled by Kahn's algorithm below: `topologicalSort`
repeatedly removes a vertex with no incoming edge from the remaining ones;
`isDag` holds when this consumes every vertex, which is exactly the
acyclicity test `is_directed_acyclic_graph` performs. -/

/-- A directed graph with vertices and edges in insertion order, as
`networkx.DiGraph` keeps them. -/
structure DepGraph where
  vertices : List String
  edges : List (String × String)
deriving DecidableEq, Repr

/-- Add a vertex if not yet present. -/
def addVertex (g : DepGraph) (v : String) : DepGraph :=
  if v ∈ g.vertices then g else { g with vertices := g.vertices ++ [v] }

/-- `DiGraph.add_edge`: add both endpoints as vertices, then the edge. -/
def addEdge (g : DepGraph) (u v : String) : DepGraph :=
  let g := addVertex (addVertex g u) v
  if (u, v) ∈ g.edges then g else { g with edges := g.edges ++ [(u, v)] }

/-- `v` has no incoming edge from the remaining vertices. -/
def noIncoming (edges : List (String × String)) (remaining : List String)
    (v : String) : Bool :=
  remaining.all fun u => decide ((u, v) ∉ edges)

/-- Kahn's algorithm: repeatedly output a remaining vertex without incoming
edges from the remaining set.  The fuel is the number of vertices. -/
def kahnAux (edges : List (String × String)) :
    Nat → List String → List String
  | 0, _ => []
  | fuel + 1, remaining =>
      match remaining.find? (noIncoming edges remaining) with
      | none => []
      | some v => v :: kahnAux edges fuel (remaining.erase v)

/-- Model of `networkx.topological_sort` on the dependency graph. -/
def topologicalSort (g : DepGraph) : List String :=
  kahnAux g.edges g.vertices.length g.vertices

/-- Model of `networkx.is_directed_acyclic_graph`: the topological sort
consumes every vertex. -/
def isDag (g : DepGraph) : Bool :=
  (topologicalSort g).length == g.vertices.length

/-- The inner `for depends_name in service.depends_on` loop of
`_resolve_depends_on`: each dependency must be a defined node, and
contributes an edge from the service to it. -/
def addDependsEdges (nodes : List (String × ServiceDescriptor))
    (name : String) : List String → DepGraph → Except DescriptorError DepGraph
  | [], g => .ok g
  | dep :: deps, g =>
      if (nodes.lookup dep).isSome then
        addDependsEdges nodes name deps (addEdge g name dep)
      else .error (.unmetDependsOn dep name)

/-- The outer `for name, service in self.nodes.items()` loop of
`_resolve_depends_on`: a node with dependencies contributes its dependency
edges, a node without contributes an edge from the synthetic root. -/
def resolveDependsOnAux (nodes : List (String × ServiceDescriptor)) :
    List (String × ServiceDescriptor) → DepGraph →
      Except DescriptorError DepGraph
  | [], g => .ok g
  | (name, svc) :: rest, g =>
      if svc.depends_on.isEmpty then
        resolveDependsOnAux nodes rest (addEdge g DEPENDENCY_ROOT name)
      else do
        let g ← addDependsEdges nodes name svc.depends_on g
        resolveDependsOnAux nodes rest g

/-- `DappDescriptor._resolve_depends_on` (`dapp.py` lines 322-334): for
every node, either edges to each of its (defined) dependencies, or an edge
from the synthetic root when it has none; an undefined dependency is a
`DescriptorError`. -/
def resolveDependsOn (nodes : List (String × ServiceDescriptor))
    (g : DepGraph) : Except DescriptorError DepGraph :=
  resolveDependsOnAux nodes nodes g

/-- `DappDescriptor._resolve_dependencies` (`dapp.py` lines 336-349):
initialize the graph with the root vertex, resolve `depends_on`, fail when
the result is not a DAG. -/
def resolveDependencies (nodes : List (String × ServiceDescriptor)) :
    Except DescriptorError DepGraph := do
  let g ← resolveDependsOn nodes ⟨[DEPENDENCY_ROOT], []⟩
  if isDag g then .ok g else .error .circularDependsOn

/-- `DappDescriptor.__init__` after field coercion (`dapp.py` lines
275-281): validation, the implicit derivations, and dependency resolution,
in that order.  This load is a pure computation — no remote resource is
involved (remote operations live in `Runner.start`). -/
def loadDapp (d : DappDescriptor) : Except DescriptorError DappDescriptor := do
  let _ ← validateNodes d
  let d := implicitProxyInit d
  let d := implicitVpn d
  let d := implicitManifestSupport d
  let _ ← resolveDependencies d.nodes
  .ok d

/-- `DappDescriptor.nodes_prioritized` (`dapp.py` lines 351-357): the
reversed topological order of the dependency graph, without the synthetic
root, paired with the node descriptors. -/
def nodesPrioritized (d : DappDescriptor) : List (String × ServiceDescriptor) :=
  match resolveDependencies d.nodes with
  | .ok g =>
      ((topologicalSort g).reverse.filter (· ≠ DEPENDENCY_ROOT)).filterMap
        (fun name => (d.nodes.lookup name).map (fun svc => (name, svc)))
  | .error _ => []

/-- Node `a` directly depends on node `b`: `b` is listed in `a`'s
`depends_on`. -/
def DirectDep (d : DappDescriptor) (a b : String) : Prop :=
  ∃ svc, d.nodes.lookup a = some svc ∧ b ∈ svc.depends_on

/-- Transitive closure of the `depends_on` relation. -/
def TransDep (d : DappDescriptor) : String → String → Prop :=
  Relation.TransGen (DirectDep d)

/-- The node names of a descriptor, in declaration order. -/
def nodeNames (d : DappDescriptor) : List String :=
  d.nodes.map Prod.fst

/-- The name `__default_network` returns for a given networks map: the
first network's name, or `"default"` when no networks are declared (in
which case it creates that network). -/
def firstNetworksName (networks : List (String × NetworkDescriptor)) : String :=
  match networks with
  | [] => NETWORK_DEFAULT_NAME
  | (name, _) :: _ => name

/-- The name `__implicit_proxy_init` assigns: the first network's name, or
`"default"` when no networks are declared. -/
def firstNetworkName (d : DappDescriptor) : String :=
  firstNetworksName d.networks

/-- Claim C2's second clause as stated: under desired state `running`, a
node reported with no instantiated instances forces the computed
application state to `starting`. -/
def EmptyNodeForcesStartingClaim : Prop :=
  ∀ (n : Nat) (m : NodesStates) (name : String),
    (name, []) ∈ m → getAppStateFromNodes n .running m = .starting

/-- A dependency cycle in the `depends_on` relation: starting from `v`, the
chain of direct dependencies runs through `rest` and back to `v`.  A cycle
of length at least 2 is one with `rest ≠ []`. -/
def DependsCycle (d : DappDescriptor) (v : String) (rest : List String) : Prop :=
  List.Chain (DirectDep d) v (rest ++ [v])

/-- A minimal service used in the concrete check descriptors below. -/
def sampleService (deps : List String) : ServiceDescriptor :=
  { payload := "foo", depends_on := deps }

/-- A concrete descriptor with a node named like the synthetic root (the
empty string) that declares a dependency: it loads successfully, yet
`nodes_prioritized` omits it. -/
def rootNamedNodeDapp : DappDescriptor :=
  { payloads := [("foo", { runtime := "vm" })],
    nodes := [("", sampleService ["a"]), ("a", sampleService [])] }

/-- A concrete three-node descriptor (`db1`, `http` depending on `db1` and
`db2`, `db2`). -/
def threeNodeDapp : DappDescriptor :=
  { payloads := [("foo", { runtime := "vm" })],
    nodes := [("db1", sampleService []),
              ("http", sampleService ["db1", "db2"]),
              ("db2", sampleService [])] }

/-- A concrete two-node dependency cycle. -/
def cycleDapp : DappDescriptor :=
  { payloads := [("foo", { runtime := "vm" })],
    nodes := [("http", sampleService ["db"]), ("db", sampleService ["http"])] }

/-- The two-level GAOM object of the repository's own lookup tests
(`tests/unit/descriptor/test_base.py`): `some_attr` is a plain field,
`runtime_attr` a runtime-flagged one. -/
def level1Obj : GaomObj :=
  .mk [("some_attr", false, .val (.jstr "some")),
       ("runtime_attr", true, .val (.jstr "run"))]

/-- The root object of the repository's own lookup tests. -/
def level0Obj : GaomObj :=
  .mk [("level1", false, .gaom level1Obj),
       ("level1_dict", false, .dictGaom [("one", level1Obj), ("two", level1Obj)]),
       ("level1_list", false, .listGaom [level1Obj, level1Obj]),
       ("level1_optional", false, .optGaom (some level1Obj)),
       ("level1_runtime", true, .optGaom (some level1Obj))]

/-- A concrete descriptor exercising `__implicit_proxy_init` and
`__implicit_vpn`: an http-proxy node that explicitly declared the second
network, and a tcp-proxy node with no network. -/
def proxyDapp : DappDescriptor :=
  { payloads := [("foo", { runtime := "vm" })],
    nodes := [("web", { payload := "foo", http_proxy := some {},
                        network := some "n2" }),
              ("db", { payload := "foo", tcp_proxy := some {} })],
    networks := [("n1", {}), ("n2", {})] }

/-- The guard of `__implicit_vpn` can no longer fire for this node against
the given payloads map: either the node has no (truthy) network, or its
payload is absent, or that payload is not a capability-free `vm` payload. -/
def VpnDead (payloads : List (String × PayloadDescriptor))
    (node : ServiceDescriptor) : Prop :=
  networkTruthy node.network = true →
    ∀ q, payloads.lookup node.payload = some q →
      ¬(q.runtime = PAYLOAD_RUNTIME_VM ∧
        q.params.lookup VM_PAYLOAD_CAPS_KWARG = none)

/-- A concrete descriptor for the VPN-injection check: a `vm` payload
referenced by a node attached to a declared network. -/
def vpnDapp : DappDescriptor :=
  { payloads := [("foo", { runtime := "vm" })],
    nodes := [("web", { payload := "foo", network := some "n1" })],
    networks := [("n1", {})] }

/-! # Theorems -/

/-- C7 (counterexample): the command list `[["run","a"],["run","b"]]` does
*not* canonicalize to two `run` commands with args `["a"]` and `["b"]` — a
bare list entry becomes the whole `args` value, leading `"run"` token
included, so the claim as stated is false on this very input. -/
theorem claim_C7_counterexample :
    canonize_commands
        [.jarr [.jstr "run", .jstr "a"], .jarr [.jstr "run", .jstr "b"]] ≠
      .ok [⟨EXEUNIT_CMD_RUN, .jobj [("args", .jarr [.jstr "a"])]⟩,
           ⟨EXEUNIT_CMD_RUN, .jobj [("args", .jarr [.jstr "b"])]⟩] := by
  decide

/-- C7 (amended): the command list `[["run","a"],["run","b"]]` canonicalizes
to exactly two commands with verb `run`, the first with args `["run","a"]`
and the second with args `["run","b"]`, in that order — each bare list entry
is taken verbatim as the `args` of an implicit `run`. -/
theorem claim_C7_canonize :
    canonize_commands
        [.jarr [.jstr "run", .jstr "a"], .jarr [.jstr "run", .jstr "b"]] =
      .ok [⟨EXEUNIT_CMD_RUN, .jobj [("args", .jarr [.jstr "run", .jstr "a"])]⟩,
           ⟨EXEUNIT_CMD_RUN, .jobj [("args", .jarr [.jstr "run", .jstr "b"])]⟩] := by
  decide

/-- C2 (counterexample): a node reported with an empty instance map does
*not* force the computed application state to `starting` — with desired
state `running`, two declared nodes, `foo` running and `bar` reported with
no instances, `_get_app_state_from_nodes` returns `running` (the empty
entry contributes no state to `all_states` while still counting towards the
node parity check), contradicting the claim's clause that a node with no
instantiated instances forces `starting`.  (The claim's
startup-phase-complete conjunct has no counterpart in the code either:
`_get_app_state_from_nodes` never consults `_startup_finished`.) -/
theorem claim_C2_counterexample : ¬ EmptyNodeForcesStartingClaim := by
  intro h
  have hcall :=
    h 2 [("foo", [ServiceState.running]), ("bar", [])] "bar" (by simp)
  have heval :
      getAppStateFromNodes 2 .running
        [("foo", [ServiceState.running]), ("bar", [])] = .running := by decide
  rw [heval] at hcall
  exact absurd hcall (by decide)

/-- C2 (amended): for every per-node state map and every desired state, the
computed application state is `running` iff the desired state is `running`,
at least one instance state is reported, every reported instance state is
`running`, and the number of map entries equals the declared node count.
(The startup-phase flag is not consulted; a node present in the map with an
empty instance set does not by itself prevent `running`, while a node absent
from the map still does, through the entry-count parity.) -/
theorem statesSingleton_iff (m : NodesStates) (desired : ServiceState) :
    statesSetIsSingleton m desired = true ↔
      allStates m ≠ [] ∧ ∀ s ∈ allStates m, s = desired := by
  simp [statesSetIsSingleton, List.all_eq_true, List.isEmpty_iff]

theorem claim_C2_app_state (n : Nat) (desired : ServiceState)
    (m : NodesStates) :
    getAppStateFromNodes n desired m = .running ↔
      desired = .running ∧ allStates m ≠ [] ∧
        (∀ s ∈ allStates m, s = .running) ∧ m.length = n := by
  by_cases hd : desired = .running
  · subst hd
    unfold getAppStateFromNodes
    rw [if_pos rfl]
    by_cases hc : (statesSetIsSingleton m .running &&
        decide (m.length = n)) = true
    · rw [if_pos hc]
      rw [Bool.and_eq_true, statesSingleton_iff, decide_eq_true_eq] at hc
      exact ⟨fun _ => ⟨rfl, hc.1.1, hc.1.2, hc.2⟩, fun _ => rfl⟩
    · rw [if_neg hc]
      constructor
      · intro h; exact absurd h (by decide)
      · rintro ⟨-, hne, hall, hlen⟩
        refine absurd ?_ hc
        rw [Bool.and_eq_true, statesSingleton_iff, decide_eq_true_eq]
        exact ⟨⟨hne, hall⟩, hlen⟩
  · have hne : getAppStateFromNodes n desired m ≠ .running := by
      unfold getAppStateFromNodes
      rw [if_neg hd]
      by_cases ht : desired = .terminated
      · rw [if_pos ht]
        by_cases hs : statesSetIsSingleton m desired = true
        · rw [if_pos hs]; decide
        · rw [if_neg hs]; decide
      · rw [if_neg ht]
        by_cases hsp : desired = .suspended
        · rw [if_pos hsp]; decide
        · rw [if_neg hsp]; decide
    exact ⟨fun h => absurd h hne, fun h => absurd h.1 hd⟩

theorem splitAtColon_no_colon (cs : List Char) (h : ∀ c ∈ cs, ¬ c = ':') :
    splitAtColon cs = (cs, none) := by
  induction cs with
  | nil => rfl
  | cons c rest ih =>
      have hc : ¬ c = ':' := h c (by simp)
      rw [splitAtColon, if_neg hc, ih (fun x hx => h x (by simp [hx]))]

theorem splitAtColon_none_spec (cs a : List Char)
    (h : splitAtColon cs = (a, none)) : a = cs ∧ ∀ c ∈ cs, ¬ c = ':' := by
  induction cs generalizing a with
  | nil =>
      rw [splitAtColon] at h
      obtain ⟨h1, -⟩ := Prod.mk.inj h
      exact ⟨h1.symm, by simp⟩
  | cons c rest ih =>
      by_cases hc : c = ':'
      · rw [splitAtColon, if_pos hc] at h
        exact absurd (Prod.mk.inj h).2 (by simp)
      · rw [splitAtColon, if_neg hc] at h
        rcases hsp : splitAtColon rest with ⟨a', b'⟩
        rw [hsp] at h
        obtain ⟨h1, h2⟩ := Prod.mk.inj h
        subst h2
        obtain ⟨ha', hnc⟩ := ih a' hsp
        subst ha'
        refine ⟨h1.symm, ?_⟩
        intro x hx
        rcases List.mem_cons.mp hx with rfl | hx
        · exact hc
        · exact hnc x hx

theorem splitAtColon_some_spec (cs a b : List Char)
    (h : splitAtColon cs = (a, some b)) : cs = a ++ ':' :: b := by
  induction cs generalizing a with
  | nil =>
      rw [splitAtColon] at h
      exact absurd (Prod.mk.inj h).2 (by simp)
  | cons c rest ih =>
      by_cases hc : c = ':'
      · rw [splitAtColon, if_pos hc] at h
        obtain ⟨h1, h2⟩ := Prod.mk.inj h
        subst hc
        rw [← h1, Option.some.inj h2]
        rfl
      · rw [splitAtColon, if_neg hc] at h
        rcases hsp : splitAtColon rest with ⟨a', b'⟩
        rw [hsp] at h
        obtain ⟨h1, h2⟩ := Prod.mk.inj h
        subst h2
        rw [← h1, List.cons_append]
        exact congrArg (c :: ·) (ih a' hsp)

theorem splitAtColon_append (l r : List Char) (h : ∀ c ∈ l, ¬ c = ':') :
    splitAtColon (l ++ ':' :: r) = (l, some r) := by
  induction l with
  | nil => rw [List.nil_append, splitAtColon, if_pos rfl]
  | cons c rest ih =>
      rw [List.cons_append, splitAtColon, if_neg (h c (by simp)),
        ih (fun x hx => h x (by simp [hx]))]

theorem isDigits_no_colon (l : List Char) (h : isDigits l = true) :
    ∀ c ∈ l, ¬ c = ':' := by
  intro c hm he
  subst he
  rw [isDigits, Bool.and_eq_true, List.all_eq_true] at h
  exact absurd (h.2 ':' hm) (by decide)

/-- C8: the proxy port string `"8080:80"` parses to local port 8080 and
remote port 80, `"80"` parses to no local port and remote port 80, and a
string is rejected (with the fixed `ValueError` message) exactly when it
matches neither `remote_port` nor `local_port:remote_port` with nonempty
digit groups. -/
theorem claim_C8_ports :
    parsePortString "8080:80" = .ok ⟨some 8080, 80⟩ ∧
    parsePortString "80" = .ok ⟨none, 80⟩ ∧
    ∀ s : String,
      parsePortString s = .error portFormatError ↔ ¬ PortStringMatches s := by
  refine ⟨by decide, by decide, ?_⟩
  intro s
  constructor
  · intro h hm
    rcases hm with hdig | ⟨l, r, hsplit, hl, hr⟩
    · rw [parsePortString,
        splitAtColon_no_colon _ (isDigits_no_colon _ hdig)] at h
      dsimp only at h
      rw [if_pos hdig] at h
      exact nomatch h
    · rw [parsePortString, hsplit,
        splitAtColon_append l r (isDigits_no_colon _ hl)] at h
      dsimp only at h
      rw [if_pos (by rw [hl, hr]; rfl)] at h
      exact nomatch h
  · intro hm
    rw [parsePortString]
    rcases hsp : splitAtColon s.toList with ⟨a, b⟩
    cases b with
    | none =>
        obtain ⟨ha, -⟩ := splitAtColon_none_spec _ _ hsp
        subst ha
        dsimp only
        rw [if_neg (fun hd => hm (Or.inl hd))]
    | some r =>
        have hcs := splitAtColon_some_spec _ _ _ hsp
        dsimp only
        rw [if_neg ?_]
        intro hd
        rw [Bool.and_eq_true] at hd
        exact hm (Or.inr ⟨a, r, hcs, hd.1, hd.2⟩)

theorem assoc_lookup_map {α β : Type} (l : List (String × α)) (f : α → β)
    (k : String) :
    (l.map (fun e => (e.1, f e.2))).lookup k = (l.lookup k).map f := by
  induction l with
  | nil => rfl
  | cons e rest ih =>
      by_cases hk : k = e.1
      · simp [List.lookup, hk]
      · simp [List.lookup, hk, ih, beq_false_of_ne hk]

theorem lookup_mem {α : Type} {l : List (String × α)} {k : String} {v : α}
    (h : l.lookup k = some v) : (k, v) ∈ l := by
  induction l with
  | nil => exact nomatch h
  | cons e rest ih =>
      obtain ⟨k2, v2⟩ := e
      by_cases hk : k = k2
      · subst hk
        rw [List.lookup, beq_self_eq_true] at h
        exact List.mem_cons.mpr (Or.inl (by rw [Option.some.inj h]))
      · rw [List.lookup, beq_false_of_ne hk] at h
        exact List.mem_cons.mpr (Or.inr (ih h))

theorem lookup_eq_none_iff {α : Type} (l : List (String × α)) (k : String) :
    l.lookup k = none ↔ k ∉ l.map Prod.fst := by
  induction l with
  | nil => simp
  | cons e rest ih =>
      obtain ⟨k2, v2⟩ := e
      by_cases hk : k = k2
      · subst hk
        rw [List.lookup, beq_self_eq_true]
        simp
      · rw [List.lookup, beq_false_of_ne hk]
        simp [ih, hk]

theorem lookup_append {α : Type} (l1 l2 : List (String × α)) (k : String) :
    (l1 ++ l2).lookup k =
      match l1.lookup k with
      | some v => some v
      | none => l2.lookup k := by
  induction l1 with
  | nil => rfl
  | cons e rest ih =>
      obtain ⟨k2, v2⟩ := e
      by_cases hk : k = k2
      · subst hk
        rw [List.cons_append, List.lookup, List.lookup, beq_self_eq_true]
      · rw [List.cons_append, List.lookup, List.lookup,
          beq_false_of_ne hk, ih]

theorem lookup_assocUpdate_self {α : Type} (l : List (String × α))
    (k : String) (v : α) (h : (l.lookup k).isSome = true) :
    (assocUpdate l k v).lookup k = some v := by
  induction l with
  | nil => exact nomatch h
  | cons e rest ih =>
      obtain ⟨k2, v2⟩ := e
      by_cases hk : k2 = k
      · subst hk
        rw [assocUpdate, if_pos rfl, List.lookup, beq_self_eq_true]
      · rw [List.lookup, beq_false_of_ne (fun he => hk he.symm)] at h
        rw [assocUpdate, if_neg hk, List.lookup,
          beq_false_of_ne (fun he => hk he.symm)]
        exact ih h

theorem lookup_assocUpdate_ne {α : Type} (l : List (String × α))
    (k k2 : String) (v : α) (h : ¬ k = k2) :
    (assocUpdate l k v).lookup k2 = l.lookup k2 := by
  induction l with
  | nil => rfl
  | cons e rest ih =>
      obtain ⟨k3, v3⟩ := e
      by_cases hk : k3 = k
      · subst hk
        rw [assocUpdate, if_pos rfl]
        simp [List.lookup, beq_false_of_ne (fun he => h he.symm)]
      · rw [assocUpdate, if_neg hk]
        by_cases hk2 : k2 = k3
        · subst hk2
          simp [List.lookup]
        · simp [List.lookup, beq_false_of_ne hk2, ih]

theorem defaultNetworkStep_spec (nets : List (String × NetworkDescriptor)) :
    (defaultNetworkStep nets).1 = firstNetworksName nets ∧
      firstNetworksName (defaultNetworkStep nets).2 = firstNetworksName nets := by
  cases nets with
  | nil => exact ⟨rfl, rfl⟩
  | cons n ns =>
      obtain ⟨name, nd⟩ := n
      exact ⟨rfl, rfl⟩

theorem proxyAux_networks (entries : List (String × ServiceDescriptor))
    (nets : List (String × NetworkDescriptor)) :
    (implicitProxyInitAux entries nets).2 =
      if nets.isEmpty && entries.any (fun e => proxyNeedsNetwork e.2) then
        [(NETWORK_DEFAULT_NAME, {})]
      else nets := by
  induction entries generalizing nets with
  | nil => simp [implicitProxyInitAux]
  | cons e rest ih =>
      obtain ⟨name, node⟩ := e
      by_cases hn : proxyNeedsNetwork node = true
      · rw [implicitProxyInitAux, if_pos hn]
        cases nets with
        | nil =>
            simp only [defaultNetworkStep]
            rw [ih]
            simp [hn]
        | cons n ns =>
            obtain ⟨nname, nd⟩ := n
            simp only [defaultNetworkStep]
            rw [ih]
            simp [hn]
      · rw [implicitProxyInitAux, if_neg hn, ih]
        have hb : proxyNeedsNetwork node = false := by
          cases hv : proxyNeedsNetwork node
          · rfl
          · exact absurd hv hn
        simp only [List.any_cons, hb, Bool.false_or]

theorem proxyAux_nodes (first : String)
    (entries : List (String × ServiceDescriptor)) :
    ∀ nets : List (String × NetworkDescriptor),
      firstNetworksName nets = first →
      (implicitProxyInitAux entries nets).1 =
        entries.map (fun e =>
          (e.1, if proxyNeedsNetwork e.2 then
              { e.2 with network := some first }
            else e.2)) := by
  induction entries with
  | nil => intro nets _; rfl
  | cons e rest ih =>
      intro nets hf
      obtain ⟨name, node⟩ := e
      cases hb : proxyNeedsNetwork node
      · rw [implicitProxyInitAux, if_neg (by rw [hb]; exact Bool.false_ne_true)]
        rcases hrest : implicitProxyInitAux rest nets with ⟨restNodes, nets3⟩
        have hrec := ih nets hf
        rw [hrest] at hrec
        dsimp only at hrec ⊢
        rw [List.map_cons, ← hrec, hb]
        simp
      · rw [implicitProxyInitAux, if_pos hb]
        obtain ⟨h1, h2⟩ := defaultNetworkStep_spec nets
        rcases hstep : defaultNetworkStep nets with ⟨f, nets2⟩
        rw [hstep] at h1 h2
        dsimp only at h1 h2 ⊢
        rcases hrest : implicitProxyInitAux rest nets2 with ⟨restNodes, nets3⟩
        have hrec := ih nets2 (by rw [h2, hf])
        rw [hrest] at hrec
        dsimp only at hrec ⊢
        rw [List.map_cons, ← hrec, hb, h1, hf]
        simp

/-- C10: after `__implicit_proxy_init`, every node with an `http_proxy` has
its `network` set to the first network's name (the `"default"` network being
created first when none exist), even when the node declared a different
network; a node with only a `tcp_proxy` is assigned that name only when it
declared no (truthy) network, and keeps its declaration otherwise. -/
theorem claim_C10_proxy_network (d : DappDescriptor) (name : String)
    (node : ServiceDescriptor) (h : d.nodes.lookup name = some node) :
    (node.http_proxy.isSome = true →
      (implicitProxyInit d).nodes.lookup name =
        some { node with network := some (firstNetworkName d) }) ∧
    (node.http_proxy = none → node.tcp_proxy.isSome = true →
      networkTruthy node.network = false →
      (implicitProxyInit d).nodes.lookup name =
        some { node with network := some (firstNetworkName d) }) ∧
    (node.http_proxy = none → node.tcp_proxy.isSome = true →
      networkTruthy node.network = true →
      (implicitProxyInit d).nodes.lookup name = some node) ∧
    (d.networks = [] → node.http_proxy.isSome = true →
      (implicitProxyInit d).networks = [(NETWORK_DEFAULT_NAME, {})]) := by
  have hnodes : (implicitProxyInit d).nodes =
      d.nodes.map (fun e =>
        (e.1, if proxyNeedsNetwork e.2 then
            { e.2 with network := some (firstNetworksName d.networks) }
          else e.2)) := by
    show (implicitProxyInitAux d.nodes d.networks).1 = _
    exact proxyAux_nodes (firstNetworksName d.networks) d.nodes d.networks rfl
  have hlook : (implicitProxyInit d).nodes.lookup name =
      some (if proxyNeedsNetwork node then
          { node with network := some (firstNetworksName d.networks) }
        else node) := by
    rw [hnodes,
      assoc_lookup_map d.nodes
        (fun v => if proxyNeedsNetwork v then
            { v with network := some (firstNetworksName d.networks) }
          else v)
        name,
      h]
    rfl
  refine ⟨?_, ?_, ?_, ?_⟩
  · intro hhttp
    rw [hlook, if_pos (by simp [proxyNeedsNetwork, hhttp])]
    rfl
  · intro hhttp htcp hnet
    rw [hlook, if_pos (by simp [proxyNeedsNetwork, hhttp, htcp, hnet])]
    rfl
  · intro hhttp htcp hnet
    rw [hlook, if_neg (by simp [proxyNeedsNetwork, hhttp, htcp, hnet])]
  · intro hempty hhttp
    show (implicitProxyInitAux d.nodes d.networks).2 = _
    rw [proxyAux_networks, if_pos ?_]
    rw [Bool.and_eq_true, hempty]
    refine ⟨rfl, ?_⟩
    rw [List.any_eq_true]
    exact ⟨(name, node), lookup_mem h, by simp [proxyNeedsNetwork, hhttp]⟩

/-- C10 (witness): the concrete descriptor `proxyDapp` instantiates the
theorem — its http-proxy node `web`, which declared network `n2`, ends up
on the first network `n1`, and its tcp-proxy node `db`, which declared no
network, is assigned `n1` as well. -/
theorem claim_C10_witness :
    (implicitProxyInit proxyDapp).nodes.lookup "web" =
        some { payload := "foo", http_proxy := some {}, network := some "n1" } ∧
      (implicitProxyInit proxyDapp).nodes.lookup "db" =
        some { payload := "foo", tcp_proxy := some {}, network := some "n1" } := by
  constructor
  · have h := claim_C10_proxy_network proxyDapp "web"
      { payload := "foo", http_proxy := some {}, network := some "n2" }
      (by decide)
    exact h.1 rfl
  · have h := claim_C10_proxy_network proxyDapp "db"
      { payload := "foo", tcp_proxy := some {} } (by decide)
    exact h.2.1 rfl rfl rfl

theorem vpnStep_lookup_cases (ps : List (String × PayloadDescriptor))
    (node : ServiceDescriptor) (k : String) :
    (implicitVpnStep ps node).lookup k = ps.lookup k ∨
      ∃ q, ps.lookup k = some q ∧ q.runtime = PAYLOAD_RUNTIME_VM ∧
        q.params.lookup VM_PAYLOAD_CAPS_KWARG = none ∧
        (implicitVpnStep ps node).lookup k =
          some { q with params := q.params ++ [vpnCapsEntry] } := by
  unfold implicitVpnStep
  by_cases ht : networkTruthy node.network = true
  · rw [if_pos ht]
    cases hl : ps.lookup node.payload with
    | none => exact Or.inl rfl
    | some p =>
        dsimp only
        by_cases hg : (decide (p.runtime = PAYLOAD_RUNTIME_VM) &&
            (p.params.lookup VM_PAYLOAD_CAPS_KWARG).isNone) = true
        · rw [if_pos hg]
          rw [Bool.and_eq_true, decide_eq_true_eq,
            Option.isNone_iff_eq_none] at hg
          by_cases hk : node.payload = k
          · subst hk
            exact Or.inr ⟨p, hl, hg.1, hg.2,
              lookup_assocUpdate_self _ _ _ (by rw [hl]; rfl)⟩
          · exact Or.inl (lookup_assocUpdate_ne _ _ _ _ hk)
        · rw [if_neg hg]
          exact Or.inl rfl
  · rw [if_neg ht]
    exact Or.inl rfl

theorem vpnCaps_lookup (params : List (String × JValue))
    (h : params.lookup VM_PAYLOAD_CAPS_KWARG = none) :
    (params ++ [vpnCapsEntry]).lookup VM_PAYLOAD_CAPS_KWARG =
      some (.jarr [.jstr VM_CAPS_VPN]) := by
  rw [lookup_append, h]
  rfl

theorem vpnStep_eq_of_dead (ps : List (String × PayloadDescriptor))
    (node : ServiceDescriptor) (h : VpnDead ps node) :
    implicitVpnStep ps node = ps := by
  unfold implicitVpnStep
  by_cases ht : networkTruthy node.network = true
  · rw [if_pos ht]
    cases hl : ps.lookup node.payload with
    | none => rfl
    | some p =>
        dsimp only
        rw [if_neg ?_]
        intro hg
        rw [Bool.and_eq_true, decide_eq_true_eq,
          Option.isNone_iff_eq_none] at hg
        exact h ht p hl ⟨hg.1, hg.2⟩
  · rw [if_neg ht]

theorem vpnStep_preserves_dead (ps : List (String × PayloadDescriptor))
    (node node' : ServiceDescriptor) (h : VpnDead ps node) :
    VpnDead (implicitVpnStep ps node') node := by
  intro ht q hq
  rcases vpnStep_lookup_cases ps node' node.payload with heq | ⟨q0, hq0, -, hc0, heq⟩
  · rw [heq] at hq
    exact h ht q hq
  · rw [heq] at hq
    rw [← Option.some.inj hq]
    rintro ⟨-, hcaps⟩
    rw [vpnCaps_lookup _ hc0] at hcaps
    exact nomatch hcaps

theorem vpnStep_establishes_dead (ps : List (String × PayloadDescriptor))
    (node : ServiceDescriptor) : VpnDead (implicitVpnStep ps node) node := by
  unfold implicitVpnStep
  by_cases ht : networkTruthy node.network = true
  · rw [if_pos ht]
    cases hl : ps.lookup node.payload with
    | none =>
        intro _ q hq
        rw [hl] at hq
        exact nomatch hq
    | some p =>
        dsimp only
        by_cases hg : (decide (p.runtime = PAYLOAD_RUNTIME_VM) &&
            (p.params.lookup VM_PAYLOAD_CAPS_KWARG).isNone) = true
        · rw [if_pos hg]
          intro _ q hq
          rw [Bool.and_eq_true, decide_eq_true_eq,
            Option.isNone_iff_eq_none] at hg
          rw [lookup_assocUpdate_self _ _ _ (by rw [hl]; rfl)] at hq
          rw [← Option.some.inj hq]
          rintro ⟨-, hcaps⟩
          rw [vpnCaps_lookup _ hg.2] at hcaps
          exact nomatch hcaps
        · rw [if_neg hg]
          intro _ q hq
          rw [hl] at hq
          rw [← Option.some.inj hq]
          rintro ⟨hrt, hcaps⟩
          exact hg (by rw [Bool.and_eq_true, decide_eq_true_eq,
            Option.isNone_iff_eq_none]; exact ⟨hrt, hcaps⟩)
  · rw [if_neg ht]
    intro ht2
    exact absurd ht2 ht

theorem vpnAux_preserves_prop {P : List (String × PayloadDescriptor) → Prop}
    (hstep : ∀ ps nd, P ps → P (implicitVpnStep ps nd)) :
    ∀ (entries : List (String × ServiceDescriptor)) ps,
      P ps → P (implicitVpnAux entries ps) := by
  intro entries
  induction entries with
  | nil => intro ps h; exact h
  | cons e rest ih =>
      intro ps h
      exact ih _ (hstep ps e.2 h)

theorem vpnAux_establishes_dead (entries : List (String × ServiceDescriptor)) :
    ∀ ps, ∀ e ∈ entries, VpnDead (implicitVpnAux entries ps) e.2 := by
  induction entries with
  | nil => intro ps e he; exact absurd he (by simp)
  | cons x rest ih =>
      intro ps e he
      rcases List.mem_cons.mp he with rfl | he
      · exact vpnAux_preserves_prop
          (fun ps nd h => vpnStep_preserves_dead ps e.2 nd h) rest _
          (vpnStep_establishes_dead ps e.2)
      · exact ih _ e he

theorem vpnAux_id_of_dead (entries : List (String × ServiceDescriptor)) :
    ∀ ps, (∀ e ∈ entries, VpnDead ps e.2) → implicitVpnAux entries ps = ps := by
  induction entries with
  | nil => intro ps _; rfl
  | cons x rest ih =>
      intro ps h
      rw [implicitVpnAux, vpnStep_eq_of_dead ps x.2 (h x (by simp))]
      exact ih ps (fun e he => h e (List.mem_cons.mpr (Or.inr he)))

/-- C9: `__implicit_vpn` is idempotent — applying it a second time leaves
the descriptor unchanged — and for every payload with runtime `vm`,
referenced by a node with a (truthy) network and having no `capabilities`
param, one load pass leaves that payload with `capabilities: ["vpn"]` as a
single-entry parameter appearing exactly once (no duplicate capability
entries). -/
theorem claim_C9_implicit_vpn (d : DappDescriptor) :
    implicitVpn (implicitVpn d) = implicitVpn d ∧
    ∀ name node p, (name, node) ∈ d.nodes →
      networkTruthy node.network = true →
      d.payloads.lookup node.payload = some p →
      p.runtime = PAYLOAD_RUNTIME_VM →
      p.params.lookup VM_PAYLOAD_CAPS_KWARG = none →
      (implicitVpn d).payloads.lookup node.payload =
          some { p with params := p.params ++ [vpnCapsEntry] } ∧
        (implicitVpn d).payloads.lookup node.payload ≠ some p ∧
        ((p.params ++ [vpnCapsEntry]).map Prod.fst).count
          VM_PAYLOAD_CAPS_KWARG = 1 := by
  constructor
  · have hpay : implicitVpnAux d.nodes (implicitVpnAux d.nodes d.payloads) =
        implicitVpnAux d.nodes d.payloads :=
      vpnAux_id_of_dead d.nodes _
        (fun e he => vpnAux_establishes_dead d.nodes d.payloads e he)
    show implicitVpn (implicitVpn d) = implicitVpn d
    simp only [implicitVpn]
    rw [hpay]
  · intro name node p hmem ht hp hrt hcaps
    obtain ⟨l1, l2, hsplit⟩ := List.append_of_mem hmem
    have happ : ∀ ps, implicitVpnAux d.nodes ps =
        implicitVpnAux l2 (implicitVpnStep (implicitVpnAux l1 ps) node) := by
      intro ps
      rw [hsplit]
      clear hsplit
      induction l1 generalizing ps with
      | nil => rfl
      | cons x rest ih => exact ih _
    have hI : (implicitVpnAux l1 d.payloads).lookup node.payload = some p ∨
        (implicitVpnAux l1 d.payloads).lookup node.payload =
          some { p with params := p.params ++ [vpnCapsEntry] } := by
      refine vpnAux_preserves_prop
        (P := fun q =>
          q.lookup node.payload = some p ∨
            q.lookup node.payload =
              some { p with params := p.params ++ [vpnCapsEntry] })
        ?_ l1 d.payloads (Or.inl hp)
      intro ps nd h
      rcases vpnStep_lookup_cases ps nd node.payload with
        heq | ⟨q0, hq0, -, hc0, heq⟩
      · rw [heq]; exact h
      · rcases h with h | h
        · rw [hq0] at h
          rw [Option.some.inj h] at heq
          exact Or.inr heq
        · rw [hq0] at h
          have hq0pc := Option.some.inj h
          rw [hq0pc] at hc0
          dsimp only at hc0
          rw [vpnCaps_lookup _ hcaps] at hc0
          exact nomatch hc0
    have hJ : (implicitVpnStep (implicitVpnAux l1 d.payloads) node).lookup
        node.payload = some { p with params := p.params ++ [vpnCapsEntry] } := by
      unfold implicitVpnStep
      rw [if_pos ht]
      rcases hI with hI | hI
      · rw [hI]
        dsimp only
        rw [if_pos (by rw [Bool.and_eq_true, decide_eq_true_eq,
            Option.isNone_iff_eq_none]; exact ⟨hrt, hcaps⟩)]
        exact lookup_assocUpdate_self _ _ _ (by rw [hI]; rfl)
      · rw [hI]
        dsimp only
        rw [if_neg (by
          rw [Bool.and_eq_true, decide_eq_true_eq, Option.isNone_iff_eq_none]
          rintro ⟨-, hc⟩
          rw [vpnCaps_lookup _ hcaps] at hc
          exact nomatch hc)]
        exact hI
    have hfinal : (implicitVpn d).payloads.lookup node.payload =
        some { p with params := p.params ++ [vpnCapsEntry] } := by
      show (implicitVpnAux d.nodes d.payloads).lookup node.payload = _
      rw [happ]
      refine vpnAux_preserves_prop
        (P := fun q =>
          q.lookup node.payload =
            some { p with params := p.params ++ [vpnCapsEntry] })
        ?_ l2 _ hJ
      intro ps nd h
      rcases vpnStep_lookup_cases ps nd node.payload with
        heq | ⟨q0, hq0, -, hc0, heq⟩
      · rw [heq]; exact h
      · rw [hq0] at h
        have hq0pc := Option.some.inj h
        rw [hq0pc] at hc0
        dsimp only at hc0
        rw [vpnCaps_lookup _ hcaps] at hc0
        exact nomatch hc0
    refine ⟨hfinal, ?_, ?_⟩
    · rw [hfinal]
      intro he
      have hpe := congrArg PayloadDescriptor.params (Option.some.inj he)
      have hlen := congrArg List.length hpe
      simp at hlen
    · rw [List.map_append, List.count_append]
      have h0 : (p.params.map Prod.fst).count VM_PAYLOAD_CAPS_KWARG = 0 := by
        rw [List.count_eq_zero]
        exact (lookup_eq_none_iff _ _).mp hcaps
      rw [h0]
      rfl

/-- C9 (witness): in the concrete descriptor `vpnDapp` the payload `foo`
gains `capabilities: ["vpn"]`, exactly once. -/
theorem claim_C9_witness :
    (implicitVpn vpnDapp).payloads.lookup "foo" =
      some { runtime := "vm", params := [vpnCapsEntry] } := by
  have h := (claim_C9_implicit_vpn vpnDapp).2 "web"
    { payload := "foo", network := some "n1" } { runtime := "vm" }
    (by decide) (by decide) (by decide) rfl rfl
  exact h.1

theorem serializeFields_lookup (fs : List (String × Bool × GFieldVal))
    (k : String) :
    (serializeFields fs).lookup k =
      (fs.lookup k).map (fun e => serializeVal e.2) := by
  induction fs with
  | nil => rfl
  | cons f rest ih =>
      obtain ⟨name, b, v⟩ := f
      by_cases hk : k = name
      · simp [serializeFields, List.lookup, hk]
      · simp [serializeFields, List.lookup, beq_false_of_ne hk, ih]

theorem gaomLookup_unknown_field (fs : List (String × Bool × GFieldVal))
    (c : QComp) (rest : List QComp) (rt : Bool)
    (h : fs.lookup c.key = none) :
    gaomLookup (.mk fs) (c :: rest) rt = .error .attributeError := by
  rw [gaomLookup]
  have h2 : (GaomObj.mk fs).fields.lookup c.key = none := h
  rw [h2]

theorem gaomLookup_runtime_gate (fs : List (String × Bool × GFieldVal))
    (c : QComp) (rest : List QComp) (fld : GFieldVal)
    (h : fs.lookup c.key = some (true, fld)) :
    gaomLookup (.mk fs) (c :: rest) false =
      .error .gaomRuntimeLookupError := by
  rw [gaomLookup]
  have h2 : (GaomObj.mk fs).fields.lookup c.key = some (true, fld) := h
  rw [h2]
  rfl

theorem gaomLookup_gaom_branch (fs : List (String × Bool × GFieldVal))
    (ck : String) (rest : List QComp) (b rt : Bool) (g : GaomObj)
    (h : fs.lookup ck = some (b, .gaom g))
    (hb : (b && !rt) = false) :
    gaomLookup (.mk fs) (⟨ck, none⟩ :: rest) rt = gaomLookup g rest rt := by
  rw [gaomLookup]
  have h2 : (GaomObj.mk fs).fields.lookup
      (QComp.mk ck none).key = some (b, .gaom g) := h
  rw [h2]
  dsimp only
  rw [if_neg (by rw [hb]; exact Bool.false_ne_true)]

theorem gaomLookup_opt_branch (fs : List (String × Bool × GFieldVal))
    (ck : String) (rest : List QComp) (b rt : Bool) (g : GaomObj)
    (h : fs.lookup ck = some (b, .optGaom (some g)))
    (hb : (b && !rt) = false) :
    gaomLookup (.mk fs) (⟨ck, none⟩ :: rest) rt = gaomLookup g rest rt := by
  rw [gaomLookup]
  have h2 : (GaomObj.mk fs).fields.lookup
      (QComp.mk ck none).key = some (b, .optGaom (some g)) := h
  rw [h2]
  dsimp only
  rw [if_neg (by rw [hb]; exact Bool.false_ne_true)]

theorem gaomLookup_dict_branch (fs : List (String × Bool × GFieldVal))
    (ck c2k : String) (rest : List QComp) (b rt : Bool)
    (m : List (String × GaomObj)) (h : fs.lookup ck = some (b, .dictGaom m))
    (hb : (b && !rt) = false) :
    gaomLookup (.mk fs) (⟨ck, none⟩ :: ⟨c2k, none⟩ :: rest) rt =
      match m.lookup c2k with
      | none => .error .gaomLookupError
      | some g => gaomLookup g rest rt := by
  rw [gaomLookup]
  have h2 : (GaomObj.mk fs).fields.lookup
      (QComp.mk ck none).key = some (b, .dictGaom m) := h
  rw [h2]
  dsimp only
  rw [if_neg (by rw [hb]; exact Bool.false_ne_true), if_pos rfl]

theorem gaomLookup_list_branch (fs : List (String × Bool × GFieldVal))
    (ck : String) (i : Nat) (rest : List QComp) (b rt : Bool)
    (l : List GaomObj) (h : fs.lookup ck = some (b, .listGaom l))
    (hb : (b && !rt) = false) :
    gaomLookup (.mk fs) (⟨ck, some i⟩ :: rest) rt =
      match l.get? i with
      | none => .error .gaomLookupError
      | some g => gaomLookup g rest rt := by
  rw [gaomLookup]
  have h2 : (GaomObj.mk fs).fields.lookup
      (QComp.mk ck (some i)).key = some (b, .listGaom l) := h
  rw [h2]
  dsimp only
  rw [if_neg (by rw [hb]; exact Bool.false_ne_true)]

theorem gaomLookup_final_field (fs : List (String × Bool × GFieldVal))
    (k : String) (b : Bool) (fld : GFieldVal)
    (h : fs.lookup k = some (b, fld)) (hb : (b && !true) = false) :
    gaomLookup (.mk fs) [⟨k, none⟩] true = .ok (serializeVal fld) := by
  have hsl : (serializeFields fs).lookup k = some (serializeVal fld) := by
    rw [serializeFields_lookup, h]
    rfl
  have hgen : genericLookup (serializeObj (.mk fs)) [⟨k, none⟩] =
      .ok (serializeVal fld) := by
    have hred : genericLookup (.jobj (serializeFields fs)) [⟨k, none⟩] =
        .ok (((serializeFields fs).lookup k).getD .null) := rfl
    rw [serializeObj, hred, hsl]
    rfl
  rw [gaomLookup]
  have h2 : (GaomObj.mk fs).fields.lookup
      (QComp.mk k none).key = some (b, fld) := h
  rw [h2]
  dsimp only
  rw [if_neg (by rw [hb]; exact Bool.false_ne_true)]
  cases fld with
  | val v => exact hgen
  | gaom g =>
      dsimp only
      rw [gaomLookup, serializeVal]
      rfl
  | optGaom g =>
      cases g with
      | none => exact hgen
      | some g2 =>
          dsimp only
          rw [gaomLookup, serializeVal]
          rfl
  | dictGaom m => exact hgen
  | listGaom l => exact hgen

/-- C4: a lookup query addressing a runtime-flagged field raises
`GaomRuntimeLookupError` when performed with `is_runtime = False` and never
returns a value; the same query performed with `is_runtime = True` returns
the stored (serialized) value.  Since the embedded lookup is a pure
function, repeated calls against an unchanged tree trivially return the
same result. -/
theorem claim_C4_runtime_lookup :
    (∀ (o : GaomObj) (cs : List QComp), AddressesRuntime o cs →
        gaomLookup o cs false = .error .gaomRuntimeLookupError) ∧
    (∀ (o : GaomObj) (cs : List QComp) (v : JValue),
        ResolvesToRuntime o cs v → gaomLookup o cs true = .ok v) := by
  constructor
  · intro o cs h
    induction h with
    | here fs c rest fld hlk => exact gaomLookup_runtime_gate fs c rest fld hlk
    | viaGaom fs c rest b g hlk hidx _ ih =>
        cases b with
        | true => exact gaomLookup_runtime_gate fs c rest _ hlk
        | false =>
            obtain ⟨ck, ci⟩ := c
            cases hidx
            rw [gaomLookup_gaom_branch fs ck rest false false g hlk rfl]
            exact ih
    | viaOpt fs c rest b g hlk hidx _ ih =>
        cases b with
        | true => exact gaomLookup_runtime_gate fs c rest _ hlk
        | false =>
            obtain ⟨ck, ci⟩ := c
            cases hidx
            rw [gaomLookup_opt_branch fs ck rest false false g hlk rfl]
            exact ih
    | viaDict fs c c2 rest b m g hlk hidx hidx2 hm _ ih =>
        cases b with
        | true => exact gaomLookup_runtime_gate fs c _ _ hlk
        | false =>
            obtain ⟨ck, ci⟩ := c
            obtain ⟨c2k, c2i⟩ := c2
            cases hidx
            cases hidx2
            rw [gaomLookup_dict_branch fs ck c2k rest false false m hlk rfl,
              hm]
            exact ih
    | viaList fs c rest b l i g hlk hidx hget _ ih =>
        cases b with
        | true => exact gaomLookup_runtime_gate fs c rest _ hlk
        | false =>
            obtain ⟨ck, ci⟩ := c
            cases hidx
            rw [gaomLookup_list_branch fs ck i rest false false l hlk rfl,
              hget]
            exact ih
  · intro o cs v h
    induction h with
    | here fs k fld hlk => exact gaomLookup_final_field fs k true fld hlk rfl
    | viaGaom fs c rest b g v hlk hidx _ ih =>
        obtain ⟨ck, ci⟩ := c
        cases hidx
        rw [gaomLookup_gaom_branch fs ck rest b true g hlk (by simp)]
        exact ih
    | viaOpt fs c rest b g v hlk hidx _ ih =>
        obtain ⟨ck, ci⟩ := c
        cases hidx
        rw [gaomLookup_opt_branch fs ck rest b true g hlk (by simp)]
        exact ih
    | viaDict fs c c2 rest b m g v hlk hidx hidx2 hm _ ih =>
        obtain ⟨ck, ci⟩ := c
        obtain ⟨c2k, c2i⟩ := c2
        cases hidx
        cases hidx2
        rw [gaomLookup_dict_branch fs ck c2k rest b true m hlk (by simp), hm]
        exact ih
    | viaList fs c rest b l i g v hlk hidx hget _ ih =>
        obtain ⟨ck, ci⟩ := c
        cases hidx
        rw [gaomLookup_list_branch fs ck i rest b true l hlk (by simp), hget]
        exact ih

/-- C4 (witness): on the concrete two-level tree of the repository's lookup
tests, the path `level1.runtime_attr` raises `GaomRuntimeLookupError`
outside a runtime context and returns the stored string inside one. -/
theorem claim_C4_witness :
    gaomLookup level0Obj [⟨"level1", none⟩, ⟨"runtime_attr", none⟩] false =
        .error .gaomRuntimeLookupError ∧
      gaomLookup level0Obj [⟨"level1", none⟩, ⟨"runtime_attr", none⟩] true =
        .ok (.jstr "run") := by
  constructor
  · exact claim_C4_runtime_lookup.1 level0Obj _
      (AddressesRuntime.viaGaom _ ⟨"level1", none⟩ _ false level1Obj rfl rfl
        (AddressesRuntime.here _ ⟨"runtime_attr", none⟩ []
          (.val (.jstr "run")) rfl))
  · exact claim_C4_runtime_lookup.2 level0Obj _ _
      (ResolvesToRuntime.viaGaom _ ⟨"level1", none⟩ _ false level1Obj _ rfl
        rfl
        (ResolvesToRuntime.here _ "runtime_attr" (.val (.jstr "run")) rfl))

/-- C5 (counterexample): when the very first path component names a key
that does not exist on the root object, the lookup does *not* fail with
`GaomLookupError` — `is_runtime_property` crashes with an uncaught
`AttributeError` (`schema()["properties"].get("zzz")` is `None`, and
`None.get("runtime", False)` fails), so the claim as stated is false at the
root path `zzz` of the test tree. -/
theorem claim_C5_counterexample :
    gaomLookup level0Obj [⟨"zzz", none⟩] false = .error .attributeError ∧
      LookupError.attributeError ≠ LookupError.gaomLookupError := by
  constructor
  · exact gaomLookup_unknown_field _ _ _ _ rfl
  · decide

/-- C5 (amended): traversal failures inside the GAOM container branches
raise `GaomLookupError`: a missing key under a `Dict[str, GaomBase]` field,
an out-of-range index under a `List[GaomBase]` field, and a missing key hit
by the generic serialized-data traversal before the last component.  But a
component naming a field that does not exist on a GAOM object — including
the very first component on the root — raises an uncaught `AttributeError`
instead, and a `dict.get` miss at the *last* component of a generic
traversal returns `None` rather than raising.  (The container-branch parts
are stated with `is_runtime = True` so the runtime gate of C4 does not
interfere.) -/
theorem claim_C5_lookup_errors :
    (∀ (fs : List (String × Bool × GFieldVal)) (ck c2k : String)
        (rest : List QComp) (b : Bool) (m : List (String × GaomObj)),
        fs.lookup ck = some (b, .dictGaom m) → m.lookup c2k = none →
        gaomLookup (.mk fs) (⟨ck, none⟩ :: ⟨c2k, none⟩ :: rest) true =
          .error .gaomLookupError) ∧
    (∀ (fs : List (String × Bool × GFieldVal)) (ck : String) (i : Nat)
        (rest : List QComp) (b : Bool) (l : List GaomObj),
        fs.lookup ck = some (b, .listGaom l) → l.get? i = none →
        gaomLookup (.mk fs) (⟨ck, some i⟩ :: rest) true =
          .error .gaomLookupError) ∧
    (∀ (kvs : List (String × JValue)) (ck c2 : QComp) (rest : List QComp),
        kvs.lookup ck.key = none → ck.index = none →
        genericLookup (.jobj kvs) (ck :: c2 :: rest) =
          .error .gaomLookupError) ∧
    (∀ (kvs : List (String × JValue)) (k : String),
        kvs.lookup k = none →
        genericLookup (.jobj kvs) [⟨k, none⟩] = .ok .null) ∧
    (∀ (fs : List (String × Bool × GFieldVal)) (c : QComp)
        (rest : List QComp) (rt : Bool),
        fs.lookup c.key = none →
        gaomLookup (.mk fs) (c :: rest) rt = .error .attributeError) := by
  refine ⟨?_, ?_, ?_, ?_, ?_⟩
  · intro fs ck c2k rest b m h hm
    rw [gaomLookup_dict_branch fs ck c2k rest b true m h (by simp), hm]
  · intro fs ck i rest b l h hget
    rw [gaomLookup_list_branch fs ck i rest b true l h (by simp), hget]
  · intro kvs ck c2 rest hlk hidx
    obtain ⟨k, ci⟩ := ck
    cases hidx
    have hred : genericLookup (.jobj kvs) (⟨k, none⟩ :: c2 :: rest) =
        genericLookup ((kvs.lookup k).getD .null) (c2 :: rest) := rfl
    rw [hred, hlk]
    rfl
  · intro kvs k hlk
    have hred : genericLookup (.jobj kvs) [⟨k, none⟩] =
        .ok ((kvs.lookup k).getD .null) := rfl
    rw [hred, hlk]
    rfl
  · intro fs c rest rt h
    exact gaomLookup_unknown_field fs c rest rt h

/-- C5 (witness): concrete instances of the amended statement on the test
tree — a missing dict key, an out-of-range list index, a missing key in the
generic traversal, a final-component `dict.get` miss, and the
`AttributeError` on an unknown field. -/
theorem claim_C5_witness :
    gaomLookup level0Obj
        [⟨"level1_dict", none⟩, ⟨"three", none⟩, ⟨"some_attr", none⟩] true =
      .error .gaomLookupError ∧
    gaomLookup level0Obj [⟨"level1_list", some 2⟩, ⟨"some_attr", none⟩] true =
      .error .gaomLookupError ∧
    genericLookup (.jobj [("a", .jobj [("b", .jstr "x")])])
        [⟨"zz", none⟩, ⟨"b", none⟩] = .error .gaomLookupError ∧
    genericLookup (.jobj [("a", .jstr "x")]) [⟨"zz", none⟩] = .ok .null ∧
    gaomLookup level0Obj [⟨"zzz", none⟩, ⟨"x", none⟩] true =
      .error .attributeError := by
  refine ⟨?_, ?_, ?_, ?_, ?_⟩
  · exact claim_C5_lookup_errors.1 level0Obj.fields "level1_dict" "three"
      [⟨"some_attr", none⟩] false [("one", level1Obj), ("two", level1Obj)]
      rfl rfl
  · exact claim_C5_lookup_errors.2.1 level0Obj.fields "level1_list" 2
      [⟨"some_attr", none⟩] false [level1Obj, level1Obj] rfl rfl
  · exact claim_C5_lookup_errors.2.2.1 _ ⟨"zz", none⟩ ⟨"b", none⟩ []
      (by decide) rfl
  · exact claim_C5_lookup_errors.2.2.2.1 _ "zz" (by decide)
  · exact claim_C5_lookup_errors.2.2.2.2 level0Obj.fields ⟨"zzz", none⟩
      [⟨"x", none⟩] true rfl

/-- C3 (counterexample): a message already enqueued on the stream's queue
at the moment of the stop request need *not* be written before the update
task exits.  Witnessed by the reachable run: a message is produced and fed
to the stream queue, `stop()` cancels the tasks, and the update task's next
resumption raises `CancelledError` inside `queue.get()` — its `except`
branch returns without draining the queue, so the message is never
written. -/
theorem claim_C3_counterexample : ¬ FlushOnStopClaim := by
  intro h
  have hreach : StreamerReachable initStreamerState
      ⟨[], ["m"], [], true, true, true⟩ := by
    refine Relation.ReflTransGen.trans
      (Relation.ReflTransGen.single
        (StreamerStep.produce initStreamerState "m")) ?_
    refine Relation.ReflTransGen.trans
      (Relation.ReflTransGen.single
        (StreamerStep.feed ⟨["m"], [], [], true, true, false⟩ "m" []
          rfl rfl rfl)) ?_
    exact Relation.ReflTransGen.single
      (StreamerStep.stop ⟨[], ["m"], [], true, true, false⟩)
  have hexit : StreamerReachable ⟨[], ["m"], [], true, true, true⟩
      ⟨[], ["m"], [], true, false, true⟩ :=
    Relation.ReflTransGen.single
      (StreamerStep.updateCancelled ⟨[], ["m"], [], true, true, true⟩
        rfl rfl)
  have hm := h ⟨[], ["m"], [], true, true, true⟩
    ⟨[], ["m"], [], true, false, true⟩ hreach rfl hexit rfl "m" (by simp)
  simp at hm

/-- C3 (amended): `stop()` cancels every task and awaiting them succeeds —
once the stop is requested, each still-alive task can take its
cancellation-exit step — but no message is written to any sink after the
stop request: messages still enqueued at that moment are dropped, not
flushed (the `except CancelledError: return` in `RunnerStream.update` and
`_feed_queue` exits without draining the queue). -/
theorem claim_C3_stop_behaviour :
    (∀ s s' : StreamerState, s.stopRequested = true → StreamerStep s s' →
        s'.written = s.written) ∧
    (∀ s : StreamerState, s.stopRequested = true → s.feedAlive = true →
        StreamerStep s { s with feedAlive := false }) ∧
    (∀ s : StreamerState, s.stopRequested = true → s.updateAlive = true →
        StreamerStep s { s with updateAlive := false }) := by
  refine ⟨?_, ?_, ?_⟩
  · intro s s' hstop hstep
    cases hstep with
    | produce => rfl
    | feed _ _ _ hns _ => rw [hstop] at hns
    | consume _ _ _ hns _ =>
        rw [hstop] at hns
        exact nomatch hns
    | stop => rfl
    | feedCancelled => rfl
    | updateCancelled => rfl
  · intro s h1 h2
    exact StreamerStep.feedCancelled s h2 h1
  · intro s h1 h2
    exact StreamerStep.updateCancelled s h2 h1

/-- C3 (witness): the amended statement applied at the concrete
stop-requested state with one pending message — the update task's exit step
is available and leaves the written list unchanged. -/
theorem claim_C3_witness :
    StreamerStep ⟨[], ["m"], ["w"], true, true, true⟩
        ⟨[], ["m"], ["w"], true, false, true⟩ ∧
      (⟨[], ["m"], ["w"], true, false, true⟩ : StreamerState).written =
        (⟨[], ["m"], ["w"], true, true, true⟩ : StreamerState).written := by
  constructor
  · exact claim_C3_stop_behaviour.2.2 ⟨[], ["m"], ["w"], true, true, true⟩
      rfl rfl
  · exact claim_C3_stop_behaviour.1 ⟨[], ["m"], ["w"], true, true, true⟩
      ⟨[], ["m"], ["w"], true, false, true⟩ rfl
      (claim_C3_stop_behaviour.2.2 ⟨[], ["m"], ["w"], true, true, true⟩
        rfl rfl)

theorem noIncoming_spec (edges : List (String × String)) (R : List String)
    (v : String) (h : noIncoming edges R v = true) :
    ∀ u ∈ R, (u, v) ∉ edges := by
  intro u hu
  rw [noIncoming, List.all_eq_true] at h
  exact of_decide_eq_true (h u hu)

theorem kahnAux_subset (edges : List (String × String)) :
    ∀ (fuel : Nat) (R : List String) (v : String),
      v ∈ kahnAux edges fuel R → v ∈ R := by
  intro fuel
  induction fuel with
  | zero => intro R v h; exact nomatch h
  | succ n ih =>
      intro R v h
      rw [kahnAux] at h
      cases hf : R.find? (noIncoming edges R) with
      | none => rw [hf] at h; exact nomatch h
      | some v0 =>
          rw [hf] at h
          rcases List.mem_cons.mp h with rfl | h2
          · exact List.mem_of_find?_eq_some hf
          · exact List.mem_of_mem_erase (ih _ _ h2)

theorem kahnAux_nodup (edges : List (String × String)) :
    ∀ (fuel : Nat) (R : List String), R.Nodup →
      (kahnAux edges fuel R).Nodup := by
  intro fuel
  induction fuel with
  | zero => intro R _; exact List.nodup_nil
  | succ n ih =>
      intro R hR
      rw [kahnAux]
      cases hf : R.find? (noIncoming edges R) with
      | none => exact List.nodup_nil
      | some v0 =>
          refine List.nodup_cons.mpr ⟨?_, ih _ (hR.erase v0)⟩
          intro hmem
          exact (hR.mem_erase_iff.mp (kahnAux_subset edges n _ _ hmem)).1 rfl

theorem kahnAux_order (edges : List (String × String)) :
    ∀ (fuel : Nat) (R : List String) (u v : String), R.Nodup →
      (u, v) ∈ edges → u ∈ R → v ∈ kahnAux edges fuel R →
      u ∈ kahnAux edges fuel R ∧
        (kahnAux edges fuel R).indexOf u <
          (kahnAux edges fuel R).indexOf v := by
  intro fuel
  induction fuel with
  | zero => intro R u v _ _ _ hv; exact nomatch hv
  | succ n ih =>
      intro R u v hR he hu hv
      rw [kahnAux] at hv ⊢
      cases hf : R.find? (noIncoming edges R) with
      | none => rw [hf] at hv; exact nomatch hv
      | some v0 =>
          rw [hf] at hv
          have hprop := noIncoming_spec edges R v0 (List.find?_some hf)
          rcases List.mem_cons.mp hv with rfl | hv2
          · exact absurd he (hprop u hu)
          · have hvne : v ≠ v0 := by
              intro heq
              subst heq
              exact (hR.mem_erase_iff.mp
                (kahnAux_subset edges n _ _ hv2)).1 rfl
            by_cases huv : u = v0
            · subst huv
              refine ⟨List.mem_cons_self _ _, ?_⟩
              rw [List.indexOf_cons_self,
                List.indexOf_cons_ne _ (Ne.symm hvne)]
              exact Nat.succ_pos _
            · have hu2 : u ∈ R.erase v0 := (List.mem_erase_of_ne huv).mpr hu
              obtain ⟨humem, hlt⟩ :=
                ih (R.erase v0) u v (hR.erase v0) he hu2 hv2
              refine ⟨List.mem_cons_of_mem _ humem, ?_⟩
              rw [List.indexOf_cons_ne _ (Ne.symm huv),
                List.indexOf_cons_ne _ (Ne.symm hvne)]
              omega

theorem kahnAux_perm (edges : List (String × String)) (R : List String)
    (hR : R.Nodup) (hlen : (kahnAux edges R.length R).length = R.length) :
    (kahnAux edges R.length R).Perm R :=
  ((kahnAux_nodup edges _ _ hR).subperm
      (fun _ hv => kahnAux_subset edges _ _ _ hv)).perm_of_length_le
    (by rw [hlen])

theorem indexOf_reverse_flip (l : List String) (x y : String) :
    l.Nodup → x ∈ l → y ∈ l → l.indexOf x < l.indexOf y →
      l.reverse.indexOf y < l.reverse.indexOf x := by
  induction l with
  | nil => intro _ hx; exact nomatch hx
  | cons h t ih =>
      intro hl hx hy hxy
      rw [List.reverse_cons]
      by_cases hxh : x = h
      · subst hxh
        have hyne : y ≠ x := by
          intro heq
          subst heq
          exact lt_irrefl _ hxy
        have hyt : y ∈ t := (List.mem_cons.mp hy).resolve_left hyne
        have hxnt : x ∉ t := (List.nodup_cons.mp hl).1
        rw [List.indexOf_append_of_mem (List.mem_reverse.mpr hyt),
          List.indexOf_append_of_not_mem
            (fun hc => hxnt (List.mem_reverse.mp hc))]
        have hlt : t.reverse.indexOf y < t.reverse.length :=
          List.indexOf_lt_length.mpr (List.mem_reverse.mpr hyt)
        have h0 : [x].indexOf x = 0 := List.indexOf_cons_self x []
        omega
      · have hxt : x ∈ t := (List.mem_cons.mp hx).resolve_left hxh
        have hyh : y ≠ h := by
          intro heq
          subst heq
          rw [List.indexOf_cons_self] at hxy
          exact Nat.not_lt_zero _ hxy
        have hyt : y ∈ t := (List.mem_cons.mp hy).resolve_left hyh
        have hxy2 : t.indexOf x < t.indexOf y := by
          rw [List.indexOf_cons_ne _ (Ne.symm hxh),
            List.indexOf_cons_ne _ (Ne.symm hyh)] at hxy
          omega
        rw [List.indexOf_append_of_mem (List.mem_reverse.mpr hyt),
          List.indexOf_append_of_mem (List.mem_reverse.mpr hxt)]
        exact ih (List.nodup_cons.mp hl).2 hxt hyt hxy2

theorem indexOf_filter_mono (p : String → Bool) (l : List String)
    (x y : String) :
    x ∈ l.filter p → y ∈ l.filter p → l.indexOf x < l.indexOf y →
      (l.filter p).indexOf x < (l.filter p).indexOf y := by
  induction l with
  | nil => intro hx; exact nomatch hx
  | cons h t ih =>
      intro hx hy hxy
      by_cases hph : p h = true
      · rw [List.filter_cons_of_pos hph] at hx hy ⊢
        by_cases hxh : x = h
        · subst hxh
          have hyx : y ≠ x := by
            intro heq
            subst heq
            exact lt_irrefl _ hxy
          rw [List.indexOf_cons_self, List.indexOf_cons_ne _ (Ne.symm hyx)]
          exact Nat.succ_pos _
        · have hyh : y ≠ h := by
            intro heq
            subst heq
            rw [List.indexOf_cons_self] at hxy
            exact Nat.not_lt_zero _ hxy
          have hxt : x ∈ t.filter p := (List.mem_cons.mp hx).resolve_left hxh
          have hyt : y ∈ t.filter p := (List.mem_cons.mp hy).resolve_left hyh
          have hxy2 : t.indexOf x < t.indexOf y := by
            rw [List.indexOf_cons_ne _ (Ne.symm hxh),
              List.indexOf_cons_ne _ (Ne.symm hyh)] at hxy
            omega
          rw [List.indexOf_cons_ne _ (Ne.symm hxh),
            List.indexOf_cons_ne _ (Ne.symm hyh)]
          have := ih hxt hyt hxy2
          omega
      · rw [List.filter_cons_of_neg hph] at hx hy ⊢
        have hxh : x ≠ h := by
          intro he
          exact hph (by rw [← he]; exact (List.mem_filter.mp hx).2)
        have hyh : y ≠ h := by
          intro he
          exact hph (by rw [← he]; exact (List.mem_filter.mp hy).2)
        have hxy2 : t.indexOf x < t.indexOf y := by
          rw [List.indexOf_cons_ne _ (Ne.symm hxh),
            List.indexOf_cons_ne _ (Ne.symm hyh)] at hxy
          omega
        exact ih hx hy hxy2

theorem filterMap_names (nodes : List (String × ServiceDescriptor))
    (L : List String)
    (h : ∀ n ∈ L, (nodes.lookup n).isSome = true) :
    (L.filterMap
        (fun name => (nodes.lookup name).map (fun svc => (name, svc)))).map
      Prod.fst = L := by
  induction L with
  | nil => rfl
  | cons n rest ih =>
      have hn := h n (by simp)
      cases hl : nodes.lookup n with
      | none => rw [hl] at hn; exact nomatch hn
      | some svc =>
          have hred : (nodes.lookup n).map (fun svc => (n, svc)) =
              some (n, svc) := by rw [hl]; rfl
          rw [List.filterMap_cons, hred]
          show ((n, svc) ::
              rest.filterMap
                (fun name => (nodes.lookup name).map
                  (fun svc => (name, svc)))).map Prod.fst = n :: rest
          rw [List.map_cons, ih (fun m hm => h m (by simp [hm]))]

theorem lookup_isSome_mem {α : Type} (l : List (String × α)) (k : String)
    (h : (l.lookup k).isSome = true) : k ∈ l.map Prod.fst := by
  by_contra hmem
  rw [← lookup_eq_none_iff l k] at hmem
  rw [hmem] at h
  exact nomatch h

theorem addVertex_mem (g : DepGraph) (w x : String) :
    x ∈ (addVertex g w).vertices ↔ x ∈ g.vertices ∨ x = w := by
  unfold addVertex
  by_cases hw : w ∈ g.vertices
  · rw [if_pos hw]
    constructor
    · exact Or.inl
    · rintro (h | rfl)
      · exact h
      · exact hw
  · rw [if_neg hw]
    show x ∈ g.vertices ++ [w] ↔ _
    simp [List.mem_append]

theorem addVertex_edges (g : DepGraph) (w : String) :
    (addVertex g w).edges = g.edges := by
  unfold addVertex
  split <;> rfl

theorem addVertex_nodup (g : DepGraph) (w : String)
    (h : g.vertices.Nodup) : (addVertex g w).vertices.Nodup := by
  unfold addVertex
  split
  · exact h
  · next hw => simp [List.nodup_append, h, hw]

theorem addEdge_vertices (g : DepGraph) (u v : String) :
    (addEdge g u v).vertices = (addVertex (addVertex g u) v).vertices := by
  by_cases hc : (u, v) ∈ (addVertex (addVertex g u) v).edges
  · show (if (u, v) ∈ (addVertex (addVertex g u) v).edges then _ else _ :
        DepGraph).vertices = _
    rw [if_pos hc]
  · show (if (u, v) ∈ (addVertex (addVertex g u) v).edges then _ else _ :
        DepGraph).vertices = _
    rw [if_neg hc]

theorem addEdge_mem_vertices (g : DepGraph) (u v x : String) :
    x ∈ (addEdge g u v).vertices ↔ x ∈ g.vertices ∨ x = u ∨ x = v := by
  rw [addEdge_vertices, addVertex_mem, addVertex_mem]
  tauto

theorem addEdge_nodup (g : DepGraph) (u v : String)
    (h : g.vertices.Nodup) : (addEdge g u v).vertices.Nodup := by
  rw [addEdge_vertices]
  exact addVertex_nodup _ _ (addVertex_nodup _ _ h)

theorem addEdge_mem_edges (g : DepGraph) (u v : String)
    (p : String × String) :
    p ∈ (addEdge g u v).edges ↔ p ∈ g.edges ∨ p = (u, v) := by
  have hbase : (addVertex (addVertex g u) v).edges = g.edges := by
    rw [addVertex_edges, addVertex_edges]
  by_cases hc : (u, v) ∈ (addVertex (addVertex g u) v).edges
  · have : (addEdge g u v).edges = g.edges := by
      show (if (u, v) ∈ (addVertex (addVertex g u) v).edges then _ else _ :
          DepGraph).edges = _
      rw [if_pos hc]
      exact hbase
    rw [this]
    constructor
    · exact Or.inl
    · rintro (h | rfl)
      · exact h
      · rw [← hbase]
        exact hc
  · have : (addEdge g u v).edges = g.edges ++ [(u, v)] := by
      show (if (u, v) ∈ (addVertex (addVertex g u) v).edges then _ else _ :
          DepGraph).edges = _
      rw [if_neg hc]
      show (addVertex (addVertex g u) v).edges ++ [(u, v)] = _
      rw [hbase]
    rw [this]
    simp [List.mem_append]

theorem addDependsEdges_spec (N : List (String × ServiceDescriptor))
    (name : String) :
    ∀ (deps : List String) (g g' : DepGraph),
      addDependsEdges N name deps g = .ok g' →
      (∀ x ∈ g.vertices, x ∈ g'.vertices) ∧
      (∀ p ∈ g.edges, p ∈ g'.edges) ∧
      (∀ dep ∈ deps, (name, dep) ∈ g'.edges) ∧
      (∀ x ∈ g'.vertices,
        x ∈ g.vertices ∨ x = name ∨ x ∈ N.map Prod.fst) ∧
      (g.vertices.Nodup → g'.vertices.Nodup) ∧
      ((∀ p ∈ g.edges, p.1 ∈ g.vertices ∧ p.2 ∈ g.vertices) →
        ∀ p ∈ g'.edges, p.1 ∈ g'.vertices ∧ p.2 ∈ g'.vertices) ∧
      (deps ≠ [] → name ∈ g'.vertices) := by
  intro deps
  induction deps with
  | nil =>
      intro g g' h
      rw [addDependsEdges] at h
      cases Except.ok.inj h
      refine ⟨fun _ hx => hx, fun _ hp => hp, ?_, fun _ hx => Or.inl hx,
        id, fun hw => hw, fun hne => absurd rfl hne⟩
      intro dep hd
      exact nomatch hd
  | cons dep rest ih =>
      intro g g' h
      rw [addDependsEdges] at h
      by_cases hl : (N.lookup dep).isSome = true
      · rw [if_pos hl] at h
        obtain ⟨hA, hB, hC, hD, hE, hF, -⟩ := ih (addEdge g name dep) g' h
        have hgmem : ∀ x ∈ g.vertices, x ∈ (addEdge g name dep).vertices :=
          fun x hx => (addEdge_mem_vertices g name dep x).mpr (Or.inl hx)
        refine ⟨fun x hx => hA x (hgmem x hx),
          fun p hp => hB p ((addEdge_mem_edges g name dep p).mpr (Or.inl hp)),
          ?_, ?_, ?_, ?_, ?_⟩
        · intro d hd
          rcases List.mem_cons.mp hd with rfl | hd2
          · exact hB _ ((addEdge_mem_edges g name d _).mpr (Or.inr rfl))
          · exact hC d hd2
        · intro x hx
          rcases hD x hx with hx2 | hx2 | hx2
          · rcases (addEdge_mem_vertices g name dep x).mp hx2 with
              h3 | h3 | h3
            · exact Or.inl h3
            · exact Or.inr (Or.inl h3)
            · subst h3
              exact Or.inr (Or.inr (lookup_isSome_mem N x hl))
          · exact Or.inr (Or.inl hx2)
          · exact Or.inr (Or.inr hx2)
        · exact fun hn => hE (addEdge_nodup g name dep hn)
        · intro hw
          refine hF ?_
          intro p hp
          rcases (addEdge_mem_edges g name dep p).mp hp with hp2 | rfl
          · obtain ⟨h1, h2⟩ := hw p hp2
            exact ⟨(addEdge_mem_vertices g name dep p.1).mpr (Or.inl h1),
              (addEdge_mem_vertices g name dep p.2).mpr (Or.inl h2)⟩
          · exact ⟨(addEdge_mem_vertices g name dep _).mpr
                (Or.inr (Or.inl rfl)),
              (addEdge_mem_vertices g name dep _).mpr
                (Or.inr (Or.inr rfl))⟩
        · intro _
          exact hA name
            ((addEdge_mem_vertices g name dep name).mpr (Or.inr (Or.inl rfl)))
      · rw [if_neg hl] at h
        exact nomatch h

theorem resolveDependsOnAux_spec (N : List (String × ServiceDescriptor)) :
    ∀ (entries : List (String × ServiceDescriptor)) (g g' : DepGraph),
      resolveDependsOnAux N entries g = .ok g' →
      (∀ x ∈ g.vertices, x ∈ g'.vertices) ∧
      (∀ p ∈ g.edges, p ∈ g'.edges) ∧
      (∀ e ∈ entries, ∀ dep ∈ e.2.depends_on, (e.1, dep) ∈ g'.edges) ∧
      (∀ x ∈ g'.vertices,
        x ∈ g.vertices ∨ x = DEPENDENCY_ROOT ∨
          x ∈ entries.map Prod.fst ∨ x ∈ N.map Prod.fst) ∧
      (g.vertices.Nodup → g'.vertices.Nodup) ∧
      ((∀ p ∈ g.edges, p.1 ∈ g.vertices ∧ p.2 ∈ g.vertices) →
        ∀ p ∈ g'.edges, p.1 ∈ g'.vertices ∧ p.2 ∈ g'.vertices) ∧
      (∀ e ∈ entries, e.1 ∈ g'.vertices) := by
  intro entries
  induction entries with
  | nil =>
      intro g g' h
      rw [resolveDependsOnAux] at h
      cases Except.ok.inj h
      refine ⟨fun _ hx => hx, fun _ hp => hp, ?_, fun _ hx => Or.inl hx,
        id, fun hw => hw, ?_⟩
      · intro e he
        exact nomatch he
      · intro e he
        exact nomatch he
  | cons entry rest ih =>
      intro g g' h
      obtain ⟨name, svc⟩ := entry
      rw [resolveDependsOnAux] at h
      by_cases hdeps : svc.depends_on.isEmpty = true
      · rw [if_pos hdeps] at h
        have hde : svc.depends_on = [] := by
          cases hv : svc.depends_on
          · rfl
          · rw [hv] at hdeps; exact nomatch hdeps
        obtain ⟨hA, hB, hC, hD, hE, hF, hG⟩ :=
          ih (addEdge g DEPENDENCY_ROOT name) g' h
        refine ⟨fun x hx => hA x
            ((addEdge_mem_vertices _ _ _ x).mpr (Or.inl hx)),
          fun p hp => hB p ((addEdge_mem_edges _ _ _ p).mpr (Or.inl hp)),
          ?_, ?_, ?_, ?_, ?_⟩
        · intro e he dep hdep
          rcases List.mem_cons.mp he with rfl | he2
          · rw [hde] at hdep
            exact nomatch hdep
          · exact hC e he2 dep hdep
        · intro x hx
          rcases hD x hx with hx2 | hx2 | hx2 | hx2
          · rcases (addEdge_mem_vertices _ _ _ x).mp hx2 with h3 | h3 | h3
            · exact Or.inl h3
            · exact Or.inr (Or.inl h3)
            · subst h3
              exact Or.inr (Or.inr (Or.inl (by simp)))
          · exact Or.inr (Or.inl hx2)
          · exact Or.inr (Or.inr (Or.inl (by simp [hx2])))
          · exact Or.inr (Or.inr (Or.inr hx2))
        · exact fun hn => hE (addEdge_nodup _ _ _ hn)
        · intro hw
          refine hF ?_
          intro p hp
          rcases (addEdge_mem_edges _ _ _ p).mp hp with hp2 | rfl
          · obtain ⟨h1, h2⟩ := hw p hp2
            exact ⟨(addEdge_mem_vertices _ _ _ p.1).mpr (Or.inl h1),
              (addEdge_mem_vertices _ _ _ p.2).mpr (Or.inl h2)⟩
          · exact ⟨(addEdge_mem_vertices _ _ _ _).mpr (Or.inr (Or.inl rfl)),
              (addEdge_mem_vertices _ _ _ _).mpr (Or.inr (Or.inr rfl))⟩
        · intro e he
          rcases List.mem_cons.mp he with rfl | he2
          · exact hA name
              ((addEdge_mem_vertices _ _ _ name).mpr (Or.inr (Or.inr rfl)))
          · exact hG e he2
      · rw [if_neg hdeps] at h
        cases hadd : addDependsEdges N name svc.depends_on g with
        | error e =>
            rw [hadd] at h
            exact nomatch h
        | ok g2 =>
            rw [hadd] at h
            have h2 : resolveDependsOnAux N rest g2 = .ok g' := h
            obtain ⟨aA, aB, aC, aD, aE, aF, aG⟩ :=
              addDependsEdges_spec N name svc.depends_on g g2 hadd
            obtain ⟨hA, hB, hC, hD, hE, hF, hG⟩ := ih g2 g' h2
            have hdne : svc.depends_on ≠ [] := by
              intro hv
              rw [hv] at hdeps
              exact hdeps rfl
            refine ⟨fun x hx => hA x (aA x hx),
              fun p hp => hB p (aB p hp), ?_, ?_, ?_, ?_, ?_⟩
            · intro e he dep hdep
              rcases List.mem_cons.mp he with rfl | he2
              · exact hB _ (aC dep hdep)
              · exact hC e he2 dep hdep
            · intro x hx
              rcases hD x hx with hx2 | hx2 | hx2 | hx2
              · rcases aD x hx2 with h3 | h3 | h3
                · exact Or.inl h3
                · exact Or.inr (Or.inr (Or.inl (by simp [h3])))
                · exact Or.inr (Or.inr (Or.inr h3))
              · exact Or.inr (Or.inl hx2)
              · exact Or.inr (Or.inr (Or.inl (by simp [hx2])))
              · exact Or.inr (Or.inr (Or.inr hx2))
            · exact fun hn => hE (aE hn)
            · exact fun hw => hF (aF hw)
            · intro e he
              rcases List.mem_cons.mp he with rfl | he2
              · exact hA name (aG hdne)
              · exact hG e he2

theorem mem_lookup_isSome {α : Type} (l : List (String × α)) (k : String)
    (h : k ∈ l.map Prod.fst) : (l.lookup k).isSome = true := by
  cases hl : l.lookup k with
  | none => exact absurd h ((lookup_eq_none_iff l k).mp hl)
  | some v => rfl

theorem resolveDependencies_elim (nodes : List (String × ServiceDescriptor))
    (g : DepGraph) (h : resolveDependencies nodes = .ok g) :
    resolveDependsOn nodes ⟨[DEPENDENCY_ROOT], []⟩ = .ok g ∧
      isDag g = true := by
  unfold resolveDependencies at h
  cases ha : resolveDependsOn nodes ⟨[DEPENDENCY_ROOT], []⟩ with
  | error e =>
      rw [ha] at h
      exact nomatch h
  | ok g0 =>
      rw [ha] at h
      have h2 : (if isDag g0 then (.ok g0 : Except DescriptorError DepGraph)
          else .error .circularDependsOn) = .ok g := h
      by_cases hd : isDag g0 = true
      · rw [if_pos hd] at h2
        cases Except.ok.inj h2
        exact ⟨rfl, hd⟩
      · rw [if_neg hd] at h2
        exact nomatch h2

theorem loadDapp_unfold (d : DappDescriptor) :
    loadDapp d =
      match validateNodes d with
      | .error e => .error e
      | .ok _ =>
          match resolveDependencies
              (implicitManifestSupport
                (implicitVpn (implicitProxyInit d))).nodes with
          | .error e => .error e
          | .ok _ =>
              .ok (implicitManifestSupport (implicitVpn (implicitProxyInit d))) := by
  cases hv : validateNodes d with
  | error e => simp [loadDapp, hv, Bind.bind, Except.bind]
  | ok u =>
      cases u
      cases h2 : resolveDependencies
          (implicitManifestSupport (implicitVpn (implicitProxyInit d))).nodes with
      | error e => simp [loadDapp, hv, h2, Bind.bind, Except.bind]
      | ok g => simp [loadDapp, hv, h2, Bind.bind, Except.bind]

theorem loadDapp_ok_elim (d d' : DappDescriptor)
    (h : loadDapp d = .ok d') :
    d' = implicitManifestSupport (implicitVpn (implicitProxyInit d)) ∧
      ∃ g, resolveDependencies d'.nodes = .ok g := by
  rw [loadDapp_unfold] at h
  cases hv : validateNodes d with
  | error e =>
      rw [hv] at h
      exact nomatch h
  | ok u =>
      cases u
      rw [hv] at h
      cases h2 : resolveDependencies
          (implicitManifestSupport (implicitVpn (implicitProxyInit d))).nodes with
      | error e =>
          rw [h2] at h
          exact nomatch h
      | ok g =>
          rw [h2] at h
          cases Except.ok.inj h
          exact ⟨rfl, g, h2⟩

theorem pipeline_nodes (d : DappDescriptor) :
    (implicitManifestSupport (implicitVpn (implicitProxyInit d))).nodes =
      d.nodes.map (fun e =>
        (e.1, if proxyNeedsNetwork e.2 then
            { e.2 with network := some (firstNetworksName d.networks) }
          else e.2)) := by
  show (implicitProxyInit d).nodes = _
  exact proxyAux_nodes (firstNetworksName d.networks) d.nodes d.networks rfl

theorem pipeline_nodeNames (d : DappDescriptor) :
    nodeNames (implicitManifestSupport (implicitVpn (implicitProxyInit d))) =
      nodeNames d := by
  rw [nodeNames, pipeline_nodes, List.map_map]
  rfl

theorem pipeline_directDep (d : DappDescriptor) (a b : String)
    (h : DirectDep d a b) :
    DirectDep (implicitManifestSupport (implicitVpn (implicitProxyInit d)))
      a b := by
  obtain ⟨svc, hlk, hdep⟩ := h
  refine ⟨if proxyNeedsNetwork svc then
      { svc with network := some (firstNetworksName d.networks) }
    else svc, ?_, ?_⟩
  · rw [pipeline_nodes,
      assoc_lookup_map d.nodes
        (fun v => if proxyNeedsNetwork v then
            { v with network := some (firstNetworksName d.networks) }
          else v) a,
      hlk]
    rfl
  · by_cases hpn : proxyNeedsNetwork svc = true
    · rw [if_pos hpn]
      exact hdep
    · rw [if_neg hpn]
      exact hdep

theorem addDependsEdges_success (N : List (String × ServiceDescriptor))
    (name : String) :
    ∀ (deps : List String) (g : DepGraph),
      (∀ dep ∈ deps, (N.lookup dep).isSome = true) →
      ∃ g', addDependsEdges N name deps g = .ok g' := by
  intro deps
  induction deps with
  | nil => intro g _; exact ⟨g, rfl⟩
  | cons dep rest ih =>
      intro g h
      rw [addDependsEdges, if_pos (h dep (by simp))]
      exact ih (addEdge g name dep) (fun x hx => h x (by simp [hx]))

theorem resolveDependsOnAux_success (N : List (String × ServiceDescriptor)) :
    ∀ (entries : List (String × ServiceDescriptor)) (g : DepGraph),
      (∀ e ∈ entries, ∀ dep ∈ e.2.depends_on,
        (N.lookup dep).isSome = true) →
      ∃ g', resolveDependsOnAux N entries g = .ok g' := by
  intro entries
  induction entries with
  | nil => intro g _; exact ⟨g, rfl⟩
  | cons entry rest ih =>
      intro g h
      obtain ⟨name, svc⟩ := entry
      rw [resolveDependsOnAux]
      by_cases hdeps : svc.depends_on.isEmpty = true
      · rw [if_pos hdeps]
        exact ih _ (fun e he => h e (by simp [he]))
      · rw [if_neg hdeps]
        obtain ⟨g2, hg2⟩ := addDependsEdges_success N name svc.depends_on g
          (fun dep hdep => h (name, svc) (by simp) dep hdep)
        rw [hg2]
        exact ih g2 (fun e he => h e (by simp [he]))

/-- C1 (counterexample): a successfully loading descriptor whose
`nodes_prioritized()` does *not* return all declared nodes — a node named
like the synthetic root (the empty string) that declares a dependency loads
fine, but is filtered out of the prioritized list together with the root. -/
theorem claim_C1_counterexample :
    loadDapp rootNamedNodeDapp = .ok rootNamedNodeDapp ∧
      nodeNames rootNamedNodeDapp = ["", "a"] ∧
      (nodesPrioritized rootNamedNodeDapp).map Prod.fst = ["a"] := by
  refine ⟨by decide, by decide, by decide⟩

/-- C1 (amended): for every descriptor with distinct node names that loads
successfully, `nodes_prioritized()` returns exactly the declared nodes
*whose name differs from the synthetic root name* (the empty string), in an
order in which every such node's transitive `depends_on` dependencies (that
are themselves not named like the root) appear strictly before the node
itself. -/
theorem claim_C1_nodes_prioritized (d d' : DappDescriptor)
    (hnodup : (nodeNames d).Nodup) (hload : loadDapp d = .ok d') :
    ((nodesPrioritized d').map Prod.fst).Perm
        ((nodeNames d').filter (· ≠ DEPENDENCY_ROOT)) ∧
      ∀ a b, TransDep d' a b → a ≠ DEPENDENCY_ROOT → b ≠ DEPENDENCY_ROOT →
        ((nodesPrioritized d').map Prod.fst).indexOf b <
          ((nodesPrioritized d').map Prod.fst).indexOf a := by
  obtain ⟨hd', g, hres⟩ := loadDapp_ok_elim d d' hload
  have hnodup' : (nodeNames d').Nodup := by
    rw [hd', pipeline_nodeNames]
    exact hnodup
  obtain ⟨haux, hdag⟩ := resolveDependencies_elim d'.nodes g hres
  obtain ⟨hA, hB, hC, hD, hE, hF, hG⟩ :=
    resolveDependsOnAux_spec d'.nodes d'.nodes ⟨[DEPENDENCY_ROOT], []⟩ g haux
  have hvnodup : g.vertices.Nodup := hE (List.nodup_singleton _)
  have hWF : ∀ p ∈ g.edges, p.1 ∈ g.vertices ∧ p.2 ∈ g.vertices :=
    hF (fun p hp => nomatch hp)
  have hroot : DEPENDENCY_ROOT ∈ g.vertices := hA _ (by simp)
  have hvchar : ∀ x, x ∈ g.vertices ↔
      (x = DEPENDENCY_ROOT ∨ x ∈ nodeNames d') := by
    intro x
    constructor
    · intro hx
      rcases hD x hx with hx2 | hx2 | hx2 | hx2
      · exact Or.inl (by simpa using hx2)
      · exact Or.inl hx2
      · exact Or.inr hx2
      · exact Or.inr hx2
    · rintro (rfl | hx)
      · exact hroot
      · obtain ⟨e, he, rfl⟩ := List.mem_map.mp hx
        exact hG e he
  have hlen : (topologicalSort g).length = g.vertices.length := by
    rw [isDag, beq_iff_eq] at hdag
    exact hdag
  have hperm : (topologicalSort g).Perm g.vertices :=
    kahnAux_perm g.edges g.vertices hvnodup hlen
  have htoponodup : (topologicalSort g).Nodup :=
    kahnAux_nodup _ _ _ hvnodup
  have hfiltall : ∀ n ∈ (topologicalSort g).reverse.filter
      (· ≠ DEPENDENCY_ROOT), (d'.nodes.lookup n).isSome = true := by
    intro n hn
    obtain ⟨hmem, hne⟩ := List.mem_filter.mp hn
    have hnv : n ∈ g.vertices := hperm.mem_iff.mp (List.mem_reverse.mp hmem)
    rcases (hvchar n).mp hnv with rfl | hmm
    · exact absurd rfl (of_decide_eq_true hne)
    · exact mem_lookup_isSome _ _ hmm
  have hnames : (nodesPrioritized d').map Prod.fst =
      (topologicalSort g).reverse.filter (· ≠ DEPENDENCY_ROOT) := by
    unfold nodesPrioritized
    rw [hres]
    exact filterMap_names _ _ hfiltall
  constructor
  · rw [hnames]
    have h1 : (topologicalSort g).reverse.Perm g.vertices :=
      (List.reverse_perm _).trans hperm
    refine (h1.filter _).trans ?_
    rw [List.perm_ext_iff_of_nodup (hvnodup.filter _) (hnodup'.filter _)]
    intro x
    simp only [List.mem_filter]
    constructor
    · rintro ⟨hx, hxr⟩
      rcases (hvchar x).mp hx with rfl | hx2
      · exact absurd rfl (of_decide_eq_true hxr)
      · exact ⟨hx2, hxr⟩
    · rintro ⟨hx, hxr⟩
      exact ⟨(hvchar x).mpr (Or.inr hx), hxr⟩
  · intro a b htd ha hb
    have hedge : ∀ x y, DirectDep d' x y → (x, y) ∈ g.edges := by
      rintro x y ⟨svc, hlk, hdep⟩
      exact hC (x, svc) (lookup_mem hlk) y hdep
    have horder : ∀ x y, TransDep d' x y →
        x ∈ topologicalSort g ∧ y ∈ topologicalSort g ∧
          (topologicalSort g).indexOf x < (topologicalSort g).indexOf y := by
      intro x y htxy
      induction htxy with
      | @single b hxy =>
          have he := hedge _ _ hxy
          obtain ⟨hxv, hbv⟩ := hWF _ he
          have hbt : b ∈ topologicalSort g := hperm.mem_iff.mpr hbv
          obtain ⟨hxt, hlt⟩ := kahnAux_order g.edges g.vertices.length
            g.vertices x b hvnodup he hxv hbt
          exact ⟨hxt, hbt, hlt⟩
      | @tail b c hxb hbc ih =>
          obtain ⟨hxt, hbt2, hlt⟩ := ih
          have he := hedge _ _ hbc
          obtain ⟨hbv, hcv⟩ := hWF _ he
          have hct : c ∈ topologicalSort g := hperm.mem_iff.mpr hcv
          obtain ⟨-, hlt2⟩ := kahnAux_order g.edges g.vertices.length
            g.vertices b c hvnodup he hbv hct
          exact ⟨hxt, hct, lt_trans hlt hlt2⟩
    obtain ⟨hat, hbt, hlt⟩ := horder a b htd
    have hrev := indexOf_reverse_flip (topologicalSort g) a b
      htoponodup hat hbt hlt
    have hamem : a ∈ (topologicalSort g).reverse.filter
        (· ≠ DEPENDENCY_ROOT) :=
      List.mem_filter.mpr ⟨List.mem_reverse.mpr hat, decide_eq_true ha⟩
    have hbmem : b ∈ (topologicalSort g).reverse.filter
        (· ≠ DEPENDENCY_ROOT) :=
      List.mem_filter.mpr ⟨List.mem_reverse.mpr hbt, decide_eq_true hb⟩
    rw [hnames]
    exact indexOf_filter_mono _ _ b a hbmem hamem hrev

/-- C1 (witness): the amended theorem applied to the concrete three-node
descriptor — the prioritized order is a permutation of the node names and
every dependency precedes its dependent (`db1` and `db2` before `http`). -/
theorem claim_C1_witness :
    ((nodesPrioritized threeNodeDapp).map Prod.fst).Perm
        ((nodeNames threeNodeDapp).filter (· ≠ DEPENDENCY_ROOT)) ∧
      ((nodesPrioritized threeNodeDapp).map Prod.fst).indexOf "db1" <
        ((nodesPrioritized threeNodeDapp).map Prod.fst).indexOf "http" := by
  have h := claim_C1_nodes_prioritized threeNodeDapp threeNodeDapp
    (by decide) (by decide)
  refine ⟨h.1, ?_⟩
  refine h.2 "http" "db1" ?_ (by decide) (by decide)
  exact Relation.TransGen.single ⟨sampleService ["db1", "db2"], by decide,
    by decide⟩

/-- A chain of direct steps from `a` through `l` to `b` yields transitive
reachability. -/
theorem chain_transGen {α : Type} (r : α → α → Prop) :
    ∀ (l : List α) (a b : α), List.Chain r a (l ++ [b]) →
      Relation.TransGen r a b := by
  intro l
  induction l with
  | nil =>
      intro a b h
      rw [List.nil_append] at h
      cases h with
      | cons h1 h2 => exact Relation.TransGen.single h1
  | cons x xs ih =>
      intro a b h
      cases h with
      | cons h1 h2 => exact Relation.TransGen.head h1 (ih x b h2)

/-- A vertex of a well-formed graph that reaches itself through the edge
relation makes the acyclicity test fail: otherwise the topological order
would place the vertex strictly before itself. -/
theorem transGen_cycle_not_dag (g : DepGraph) (hvnodup : g.vertices.Nodup)
    (hWF : ∀ p ∈ g.edges, p.1 ∈ g.vertices ∧ p.2 ∈ g.vertices)
    (v : String)
    (hcyc : Relation.TransGen (fun a b : String => (a, b) ∈ g.edges) v v) :
    isDag g = false := by
  cases hdag : isDag g with
  | false => rfl
  | true =>
      exfalso
      have hlen : (topologicalSort g).length = g.vertices.length := by
        rw [isDag, beq_iff_eq] at hdag
        exact hdag
      have hperm : (topologicalSort g).Perm g.vertices :=
        kahnAux_perm g.edges g.vertices hvnodup hlen
      have horder : ∀ x y,
          Relation.TransGen (fun a b : String => (a, b) ∈ g.edges) x y →
          x ∈ topologicalSort g ∧ y ∈ topologicalSort g ∧
            (topologicalSort g).indexOf x < (topologicalSort g).indexOf y := by
        intro x y htxy
        induction htxy with
        | @single b hxy =>
            obtain ⟨hxv, hbv⟩ := hWF _ hxy
            have hbt : b ∈ topologicalSort g := hperm.mem_iff.mpr hbv
            obtain ⟨hxt, hlt⟩ := kahnAux_order g.edges g.vertices.length
              g.vertices x b hvnodup hxy hxv hbt
            exact ⟨hxt, hbt, hlt⟩
        | @tail b c hxb hbc ih =>
            obtain ⟨hxt, hbt2, hlt⟩ := ih
            obtain ⟨hbv, hcv⟩ := hWF _ hbc
            have hct : c ∈ topologicalSort g := hperm.mem_iff.mpr hcv
            obtain ⟨-, hlt2⟩ := kahnAux_order g.edges g.vertices.length
              g.vertices b c hvnodup hbc hbv hct
            exact ⟨hxt, hct, lt_trans hlt hlt2⟩
      obtain ⟨-, -, hlt⟩ := horder v v hcyc
      exact lt_irrefl _ hlt

/-- A descriptor whose every dependency names a declared node keeps that
property through the implicit-derivation pipeline, stated as the lookup
success that `addDependsEdges` tests. -/
theorem pipeline_depends_defined (d : DappDescriptor)
    (hdef : ∀ e ∈ d.nodes, ∀ dep ∈ e.2.depends_on, dep ∈ nodeNames d) :
    ∀ e ∈ (implicitManifestSupport (implicitVpn (implicitProxyInit d))).nodes,
      ∀ dep ∈ e.2.depends_on,
        ((implicitManifestSupport
            (implicitVpn (implicitProxyInit d))).nodes.lookup dep).isSome
          = true := by
  intro e he dep hdep
  rw [pipeline_nodes] at he
  obtain ⟨e0, he0, rfl⟩ := List.mem_map.mp he
  have hdep0 : dep ∈ e0.2.depends_on := by
    by_cases hpn : proxyNeedsNetwork e0.2 = true
    · simpa [hpn] using hdep
    · simpa [hpn] using hdep
  have hmem : dep ∈ nodeNames d := hdef e0 he0 dep hdep0
  refine mem_lookup_isSome _ _ ?_
  rw [← pipeline_nodeNames d] at hmem
  exact hmem

/-- C6: for every descriptor whose `depends_on` relation contains a cycle
of length at least 2, loading fails with a `DescriptorError` (the load is a
pure computation, so no remote resource is touched and the cycle is never
silently truncated into a partial order); when the descriptor additionally
passes node validation and every dependency names a declared node, the
error is precisely the cycle error `circularDependsOn`. -/
theorem claim_C6_cycle (d : DappDescriptor) (v : String) (rest : List String)
    (hrest : rest ≠ []) (hcyc : DependsCycle d v rest) :
    (∃ e, loadDapp d = .error e) ∧
      (validateNodes d = .ok () →
        (∀ e ∈ d.nodes, ∀ dep ∈ e.2.depends_on, dep ∈ nodeNames d) →
          loadDapp d = .error .circularDependsOn) := by
  have htrans : Relation.TransGen (DirectDep d) v v :=
    chain_transGen (DirectDep d) rest v v hcyc
  constructor
  · cases hl : loadDapp d with
    | error e => exact ⟨e, rfl⟩
    | ok d2 =>
        exfalso
        obtain ⟨hd2, g, hres⟩ := loadDapp_ok_elim d d2 hl
        subst hd2
        obtain ⟨haux, hdag⟩ := resolveDependencies_elim _ g hres
        obtain ⟨hA, hB, hC, hD, hE, hF, hG⟩ :=
          resolveDependsOnAux_spec _ _ ⟨[DEPENDENCY_ROOT], []⟩ g haux
        have hvnodup : g.vertices.Nodup := hE (List.nodup_singleton _)
        have hWF : ∀ p ∈ g.edges, p.1 ∈ g.vertices ∧ p.2 ∈ g.vertices :=
          hF (fun p hp => nomatch hp)
        have hedge : ∀ a b,
            DirectDep (implicitManifestSupport
              (implicitVpn (implicitProxyInit d))) a b →
            (a, b) ∈ g.edges := by
          rintro a b ⟨svc, hlk, hdep⟩
          exact hC (a, svc) (lookup_mem hlk) b hdep
        have htrans2 : Relation.TransGen
            (fun a b : String => (a, b) ∈ g.edges) v v :=
          Relation.TransGen.mono (fun a b hab => hedge a b hab)
            (Relation.TransGen.mono
              (fun a b hab => pipeline_directDep d a b hab) htrans)
        have hfalse := transGen_cycle_not_dag g hvnodup hWF v htrans2
        rw [hfalse] at hdag
        exact nomatch hdag
  · intro hval hdef
    obtain ⟨g, hg⟩ := resolveDependsOnAux_success
      (implicitManifestSupport (implicitVpn (implicitProxyInit d))).nodes
      (implicitManifestSupport (implicitVpn (implicitProxyInit d))).nodes
      ⟨[DEPENDENCY_ROOT], []⟩
      (pipeline_depends_defined d hdef)
    obtain ⟨hA, hB, hC, hD, hE, hF, hG⟩ :=
      resolveDependsOnAux_spec _ _ ⟨[DEPENDENCY_ROOT], []⟩ g hg
    have hvnodup : g.vertices.Nodup := hE (List.nodup_singleton _)
    have hWF : ∀ p ∈ g.edges, p.1 ∈ g.vertices ∧ p.2 ∈ g.vertices :=
      hF (fun p hp => nomatch hp)
    have hedge : ∀ a b,
        DirectDep (implicitManifestSupport
          (implicitVpn (implicitProxyInit d))) a b →
        (a, b) ∈ g.edges := by
      rintro a b ⟨svc, hlk, hdep⟩
      exact hC (a, svc) (lookup_mem hlk) b hdep
    have htrans2 : Relation.TransGen
        (fun a b : String => (a, b) ∈ g.edges) v v :=
      Relation.TransGen.mono (fun a b hab => hedge a b hab)
        (Relation.TransGen.mono
          (fun a b hab => pipeline_directDep d a b hab) htrans)
    have hfalse := transGen_cycle_not_dag g hvnodup hWF v htrans2
    have hresE : resolveDependencies
        (implicitManifestSupport (implicitVpn (implicitProxyInit d))).nodes =
        .error .circularDependsOn := by
      have hro : resolveDependsOn
          (implicitManifestSupport (implicitVpn (implicitProxyInit d))).nodes
          ⟨[DEPENDENCY_ROOT], []⟩ = .ok g := hg
      simp [resolveDependencies, hro, Bind.bind, Except.bind, hfalse]
    rw [loadDapp_unfold, hval, hresE]

/-- C6 (witness): the concrete two-node cycle descriptor (`http` depends on
`db`, `db` depends on `http`) fails to load with `circularDependsOn`. -/
theorem claim_C6_witness :
    loadDapp cycleDapp = .error .circularDependsOn := by
  have h := claim_C6_cycle cycleDapp "http" ["db"] (by decide)
    (List.Chain.cons ⟨sampleService ["db"], by decide, by decide⟩
      (List.Chain.cons ⟨sampleService ["http"], by decide, by decide⟩
        List.Chain.nil))
  exact h.2 (by decide) (by decide)

end DappRunner
